import Mathlib

/-! # gcrsync: the bounded-concurrency synchronisation engine (`pkg/gcrsync/sync.go`)

A shallow embedding of `Gcr.Init` (the limit channels and the update channel) and of
`Gcr.Sync` as an interleaving transition system: one goroutine for the deadline timer,
one worker goroutine per entry of `needSyncImages`, the collector ("doc gen") goroutine
and the calling goroutine.  A schedule is a list of `Action`s; `step` executes one
action of one goroutine and returns `none` when that goroutine cannot move (it is
blocked, or it is not at that statement).  Go's `select` picks any ready case, so to
each case of a `select` corresponds one action, enabled exactly when its communication
is ready.

Channels are modelled by their buffers: `ProcessLimit` by the number of buffered tokens
(every value sent is the constant `1`), `update` by the list of buffered strings and a
closed flag.  On a channel of capacity 0 a send and a receive meet directly: the action
`handoff` is that meeting of a deferred send with the receive of a `select`.

Wall-clock time is abstracted: with `SyncTimeOut ≠ 0` the timer may fire at any point of
the interleaving, with `SyncTimeOut = 0` it never does.  What the transfers, the
registries and the commit do besides synchronising is left out.
-/

namespace Gcrsync

/-! ## The data model and the transition system -/

/-- The fields of `Gcr` that `Init` and `Sync` use for synchronisation. -/
structure Gcr where
  /-- The field `g.SyncTimeOut`, a `time.Duration`; `0` means no deadline. -/
  SyncTimeOut : Int
  /-- The capacity `cap(g.ProcessLimit)`. -/
  ProcessLimitCap : Nat
  /-- The length `len(g.ProcessLimit)`: the tokens buffered in the channel. -/
  ProcessLimit : Nat
  /-- The buffer of `g.update`, oldest first. -/
  update : List String
  /-- Whether `g.update` has been closed. -/
  updateClosed : Bool
  deriving DecidableEq

/-- Capacity of `g.update`: `make(chan string, 20)`. -/
def updateCap : Nat := 20

/-- A `Gcr` as it is before `Init`: the limit channel has been made with capacity `P`
and is empty, the deadline is `T`. -/
def newGcr (P : Nat) (T : Int) : Gcr :=
  { SyncTimeOut := T, ProcessLimitCap := P, ProcessLimit := 0, update := [],
    updateClosed := false }

/-- A send `ch <- 1` into the buffer of a limit channel of capacity `cap` holding
`tokens` values; `none` when the buffer is full (the sender blocks until a receiver
takes a value; for capacity 0 that is the action `handoff` of `step`). -/
def sendToken (cap tokens : Nat) : Option Nat :=
  if tokens < cap then some (tokens + 1) else none

/-- The loop `for i := 0; i < cap(g.ProcessLimit); i++ { g.ProcessLimit <- 1 }`, with
`n` iterations left. -/
def fillLimit (cap : Nat) : Nat → Nat → Option Nat
  | 0, tokens => some tokens
  | n + 1, tokens => (sendToken cap tokens).bind (fillLimit cap n)

/-- The method `Gcr.Init`, restricted to the limit channel and the update channel: fill
`ProcessLimit` up to its capacity and make a fresh `update` channel. -/
def Init (g : Gcr) : Option Gcr :=
  (fillLimit g.ProcessLimitCap g.ProcessLimitCap g.ProcessLimit).map fun t =>
    { g with ProcessLimit := t, update := [], updateClosed := false }

/-- Program points of a worker goroutine (`sync.go` lines 73-83). -/
inductive WPc where
  /-- At the `select` between `<-g.ProcessLimit` and `<-ctx.Done()`. -/
  | select
  /-- Inside `g.Process`, transferring the image. -/
  | transfer
  /-- Inside `g.Process`, the transfer succeeded, about to send on `g.update`. -/
  | emit
  /-- In the deferred function, at `g.ProcessLimit <- 1`. -/
  | release
  /-- In the deferred function, at `processWg.Done()`. -/
  | wgDone
  /-- The goroutine has returned. -/
  | finished
  deriving DecidableEq

/-- A worker goroutine: its image, its program point, and a history counter of the
calls of `g.Process` it has made. -/
structure Worker where
  image : String
  pc : WPc
  calls : Nat
  deriving DecidableEq

/-- Program points of the collector goroutine (`sync.go` lines 89-109). -/
inductive CPc where
  /-- In the `for { select { ... } }` loop. -/
  | loop
  /-- At the label `ChangeLogDone`. -/
  | changeLogDone
  /-- After the `if`, at the deferred `chgWg.Done()`. -/
  | exit
  /-- The goroutine has returned. -/
  | done
  deriving DecidableEq

/-- Program points of the goroutine that called `Sync` (`sync.go` lines 111-115). -/
inductive MPc where
  /-- At `processWg.Wait()`. -/
  | wait
  /-- At `close(g.update)`. -/
  | close
  /-- At `chgWg.Wait()`. -/
  | waitChg
  /-- The call of `Sync` has returned (the deferred `cancel()` has run). -/
  | returned
  deriving DecidableEq

/-- A state of one call of `Sync`. -/
structure SyncState where
  g : Gcr
  /-- Whether `ctx.Done()` is closed. -/
  cancelled : Bool
  /-- Whether `time.After(g.SyncTimeOut)` has delivered. -/
  timerFired : Bool
  workers : List Worker
  /-- Counter of `processWg`. -/
  processWg : Nat
  collector : CPc
  /-- The local `images` of the collector: the Changelog Batch. -/
  images : List String
  /-- The arguments of the calls of `g.Commit`, oldest first. -/
  commits : List (List String)
  /-- History: the records sent on `g.update` during this call, in the order of the
  sends, which is the order of arrival in the channel. -/
  sent : List String
  /-- Counter of `chgWg`. -/
  chgWg : Nat
  main : MPc
  /-- A goroutine has panicked: the program is dead. -/
  panicked : Bool
  deriving DecidableEq

/-- The state of `Sync` once the plan is computed, the context made, the wait groups
set (`processWg.Add(len(needSyncImages))`, `chgWg.Add(1)`) and the goroutines launched:
every goroutine is at its first statement and the caller is at `processWg.Wait()`.
A goroutine that is launched but has not run yet behaves as one that is not yet
launched, so the launching loop needs no program points of its own. -/
def start (g : Gcr) (needSyncImages : List String) : SyncState :=
  { g := g, cancelled := false, timerFired := false,
    workers := needSyncImages.map fun n => { image := n, pc := WPc.select, calls := 0 },
    processWg := needSyncImages.length, collector := CPc.loop, images := [],
    commits := [], sent := [], chgWg := 1, main := MPc.wait, panicked := false }

/-- The steps a call of `g.Process` can take. -/
inductive ProcessStep where
  /-- The transfer succeeds. -/
  | transferOk
  /-- The transfer fails and `g.Process` returns. -/
  | transferFail
  /-- The send `g.update <- imageName`, after which `g.Process` returns. -/
  | emit
  deriving DecidableEq

/-- One atomic action of one goroutine of `Sync`. -/
inductive Action where
  /-- Timer goroutine: `<-time.After(g.SyncTimeOut)` delivers, then `cancel()`. -/
  | timer
  /-- Worker `i`: `case <-g.ProcessLimit:`, entering `g.Process`. -/
  | acquire (i : Nat)
  /-- Worker `i`: `case <-ctx.Done():`. -/
  | skip (i : Nat)
  /-- Worker `i`: one step inside `g.Process(tmpImageName)`. -/
  | process (i : Nat) (p : ProcessStep)
  /-- Worker `i`, deferred: `g.ProcessLimit <- 1`. -/
  | release (i : Nat)
  /-- Workers `i` and `j`, on a `ProcessLimit` of capacity 0: the deferred
  `g.ProcessLimit <- 1` of worker `i` meets `case <-g.ProcessLimit:` of worker `j`,
  which enters `g.Process`. -/
  | handoff (i j : Nat)
  /-- Worker `i`, deferred: `processWg.Done()`. -/
  | wgDone (i : Nat)
  /-- Collector: `case imageName, ok := <-g.update:`. -/
  | recv
  /-- Collector: `case <-ctx.Done():`. -/
  | ctxDone
  /-- Collector: `if len(images) > 0 { g.Commit(images) }`. -/
  | changeLogDone
  /-- Collector, deferred: `chgWg.Done()`. -/
  | chgDone
  /-- Caller: `processWg.Wait()` returns. -/
  | wait
  /-- Caller: `close(g.update)`. -/
  | close
  /-- Caller: `chgWg.Wait()` returns, `Sync` returns and the deferred `cancel()` runs. -/
  | ret
  deriving DecidableEq

/-- Modelled from the spec: `g.Process` is not in `sync.go`.  It is the Image Transfer
Executor, of unknown duration, run by worker `i` (currently `w`): the transfer either
fails, and `g.Process` returns without a Completion Record, or succeeds, and the image
identifier is sent once on `g.update` before `g.Process` returns.  The send panics on a
closed channel and blocks on a full buffer. -/
def Process (s : SyncState) (i : Nat) (w : Worker) : ProcessStep → Option SyncState
  | ProcessStep.transferOk =>
    if w.pc = WPc.transfer then
      some { s with workers := s.workers.set i { w with pc := WPc.emit } }
    else none
  | ProcessStep.transferFail =>
    if w.pc = WPc.transfer then
      some { s with workers := s.workers.set i { w with pc := WPc.release } }
    else none
  | ProcessStep.emit =>
    if w.pc = WPc.emit then
      if s.g.updateClosed = true then some { s with panicked := true }
      else if s.g.update.length < updateCap then
        some { s with
          g := { s.g with update := s.g.update ++ [w.image] },
          sent := s.sent ++ [w.image],
          workers := s.workers.set i { w with pc := WPc.release } }
      else none
    else none

/-- Modelled from the spec: `g.Commit` is not in `sync.go`.  It is the Changelog
Committer; the model records the batch it is called with. -/
def Commit (s : SyncState) (images : List String) : SyncState :=
  { s with commits := s.commits ++ [images] }

/-- One action of `Sync`; `none` when the action is not enabled.  The worker actions
act on the worker at index `i` of the launch order, when there is one. -/
def step (s : SyncState) (a : Action) : Option SyncState :=
  if s.panicked = true then none else
  match a with
  | Action.timer =>
    if s.g.SyncTimeOut ≠ 0 ∧ s.timerFired = false then
      some { s with timerFired := true, cancelled := true }
    else none
  | Action.acquire i =>
    (s.workers[i]?).bind fun w =>
      if w.pc = WPc.select ∧ 0 < s.g.ProcessLimit then
        some { s with
          g := { s.g with ProcessLimit := s.g.ProcessLimit - 1 },
          workers := s.workers.set i { w with pc := WPc.transfer, calls := w.calls + 1 } }
      else none
  | Action.skip i =>
    (s.workers[i]?).bind fun w =>
      if w.pc = WPc.select ∧ s.cancelled = true then
        some { s with workers := s.workers.set i { w with pc := WPc.release } }
      else none
  | Action.process i p => (s.workers[i]?).bind fun w => Process s i w p
  | Action.release i =>
    (s.workers[i]?).bind fun w =>
      if w.pc = WPc.release then
        (sendToken s.g.ProcessLimitCap s.g.ProcessLimit).map fun t =>
          { s with
            g := { s.g with ProcessLimit := t },
            workers := s.workers.set i { w with pc := WPc.wgDone } }
      else none
  | Action.handoff i j =>
    (s.workers[i]?).bind fun w =>
      (s.workers[j]?).bind fun v =>
        if s.g.ProcessLimitCap = 0 ∧ w.pc = WPc.release ∧ v.pc = WPc.select then
          some { s with
            workers := (s.workers.set i { w with pc := WPc.wgDone }).set j
              { v with pc := WPc.transfer, calls := v.calls + 1 } }
        else none
  | Action.wgDone i =>
    (s.workers[i]?).bind fun w =>
      if w.pc = WPc.wgDone then
        if s.processWg = 0 then some { s with panicked := true }
        else some { s with
          processWg := s.processWg - 1,
          workers := s.workers.set i { w with pc := WPc.finished } }
      else none
  | Action.recv =>
    if s.collector = CPc.loop then
      match s.g.update with
      | imageName :: rest =>
        some { s with g := { s.g with update := rest }, images := s.images ++ [imageName] }
      | [] =>
        if s.g.updateClosed = true then some { s with collector := CPc.changeLogDone }
        else none
    else none
  | Action.ctxDone =>
    if s.collector = CPc.loop ∧ s.cancelled = true then
      some { s with collector := CPc.changeLogDone }
    else none
  | Action.changeLogDone =>
    if s.collector = CPc.changeLogDone then
      if 0 < s.images.length then
        some { Commit s s.images with collector := CPc.exit }
      else some { s with collector := CPc.exit }
    else none
  | Action.chgDone =>
    if s.collector = CPc.exit then
      if s.chgWg = 0 then some { s with panicked := true }
      else some { s with collector := CPc.done, chgWg := s.chgWg - 1 }
    else none
  | Action.wait =>
    if s.main = MPc.wait ∧ s.processWg = 0 then some { s with main := MPc.close } else none
  | Action.close =>
    if s.main = MPc.close then
      if s.g.updateClosed = true then some { s with panicked := true }
      else some { s with g := { s.g with updateClosed := true }, main := MPc.waitChg }
    else none
  | Action.ret =>
    if s.main = MPc.waitChg ∧ s.chgWg = 0 then
      some { s with main := MPc.returned, cancelled := true }
    else none

/-- Execute a schedule; `none` when some action of it is not enabled where it stands. -/
def run (s : SyncState) : List Action → Option SyncState
  | [] => some s
  | a :: as => (step s a).bind fun s' => run s' as

/-- Number of workers inside `g.Process`. -/
def inProcess (s : SyncState) : Nat :=
  s.workers.countP fun w => decide (w.pc = WPc.transfer ∨ w.pc = WPc.emit)

/-! ## Counting predicates, measures and invariants -/

/-- Workers that have not returned: those `processWg` still counts. -/
def unfinished (w : Worker) : Bool := decide (w.pc ≠ WPc.finished)

/-- Workers that hold a token: they received one from `ProcessLimit` and have not yet
sent one back. -/
def holding (w : Worker) : Bool :=
  decide (w.pc = WPc.transfer ∨ w.pc = WPc.emit ∨ (w.pc = WPc.release ∧ w.calls ≠ 0))

/-- Workers that have sent a token on `ProcessLimit` without having received one: they
took the `ctx.Done()` case and their deferred send went through. -/
def surplus (w : Worker) : Bool :=
  decide ((w.pc = WPc.wgDone ∨ w.pc = WPc.finished) ∧ w.calls = 0)

/-- Workers that still owe the Completion Record for image `x`. -/
def pending (x : String) (w : Worker) : Bool :=
  decide (w.image = x ∧ (w.pc = WPc.select ∨ w.pc = WPc.transfer ∨ w.pc = WPc.emit))

/-- Actions of a run in which the deadline does not fire and no transfer fails. -/
def Action.quiet : Action → Bool
  | Action.timer => false
  | Action.process _ ProcessStep.transferFail => false
  | _ => true

/-- Steps a worker at this program point can still take, at most. -/
def WPc.rank : WPc → Nat
  | WPc.select => 6
  | WPc.transfer => 5
  | WPc.emit => 4
  | WPc.release => 2
  | WPc.wgDone => 1
  | WPc.finished => 0

/-- Steps the collector can still take besides its receives. -/
def CPc.rank : CPc → Nat
  | CPc.loop => 3
  | CPc.changeLogDone => 2
  | CPc.exit => 1
  | CPc.done => 0

/-- Steps the caller can still take. -/
def MPc.rank : MPc → Nat
  | MPc.wait => 3
  | MPc.close => 2
  | MPc.waitChg => 1
  | MPc.returned => 0

/-- A bound on the number of steps left: every step lowers it. -/
def fuel (s : SyncState) : Nat :=
  (s.workers.map fun w => w.pc.rank).sum + s.g.update.length + s.collector.rank +
    s.main.rank + (if s.timerFired = true then 0 else 1) + (if s.panicked = true then 0 else 1)

/-- Consistency of the history counter with the program point; `fired` tells whether
the timer has fired: as long as it has not, no worker has left the `select` through
the `ctx.Done()` case. -/
def Worker.ok (fired : Bool) (w : Worker) : Prop :=
  w.calls ≤ 1 ∧ (w.pc = WPc.select → w.calls = 0) ∧
    (w.pc = WPc.transfer ∨ w.pc = WPc.emit → w.calls = 1) ∧
    (fired = false → w.pc ≠ WPc.select → w.calls = 1)

/-- The invariant of a call of `Sync` started from `g0` with plan `plan`. -/
structure Inv (g0 : Gcr) (plan : List String) (s : SyncState) : Prop where
  cap : s.g.ProcessLimitCap = g0.ProcessLimitCap
  timeout : s.g.SyncTimeOut = g0.SyncTimeOut
  imgs : s.workers.map (fun w => w.image) = plan
  wg : s.processWg = s.workers.countP unfinished
  tokens : s.g.ProcessLimit + s.workers.countP holding
    = g0.ProcessLimit + s.workers.countP surplus
  room : s.g.ProcessLimit ≤ s.g.ProcessLimitCap
  wf : ∀ w ∈ s.workers, w.ok s.timerFired
  mainWg : s.main ≠ MPc.wait → s.processWg = 0
  closed : s.main = MPc.waitChg ∨ s.main = MPc.returned → s.g.updateClosed = true
  chg : s.chgWg = if s.collector = CPc.done then 0 else 1
  retDone : s.main = MPc.returned → s.collector = CPc.done
  noCommit : s.collector = CPc.loop ∨ s.collector = CPc.changeLogDone → s.commits = []
  commit : s.collector = CPc.exit ∨ s.collector = CPc.done →
    s.commits = if s.images = [] then [] else [s.images]
  timer : s.g.SyncTimeOut = 0 → s.timerFired = false
  cancel : s.cancelled = true → s.timerFired = true ∨ s.main = MPc.returned
  left : s.collector ≠ CPc.loop →
    s.timerFired = true ∨ (s.g.update = [] ∧ s.g.updateClosed = true)
  opened : g0.updateClosed = false →
    s.panicked = false ∧
      (s.g.updateClosed = true → s.main = MPc.waitChg ∨ s.main = MPc.returned)
  reclosed : g0.updateClosed = true →
    s.g.updateClosed = true ∧ (s.main = MPc.wait ∨ s.main = MPc.close)
  arrive : g0.update ++ s.sent = s.images ++ s.g.update

/-- Accounting of the Completion Records in a quiet run: each entry of the plan is in
the batch, in the channel, or still owed by its worker. -/
structure Quiet (g0 : Gcr) (plan : List String) (s : SyncState) : Prop where
  inv : Inv g0 plan s
  notFired : s.timerFired = false
  acct : ∀ x, s.images.count x + s.g.update.count x + s.workers.countP (pending x)
    = plan.count x

/-- The graph of `step`, one constructor per enabled case, with the worker that moves
singled out of the list of workers. -/
inductive Step : SyncState → Action → SyncState → Prop
  | timer {s : SyncState} (hp : s.panicked = false) (hT : s.g.SyncTimeOut ≠ 0)
      (hf : s.timerFired = false) :
      Step s Action.timer { s with timerFired := true, cancelled := true }
  | acquire {s : SyncState} {pre post : List Worker} {w : Worker} (hp : s.panicked = false)
      (hws : s.workers = pre ++ w :: post) (hpc : w.pc = WPc.select)
      (ht : 0 < s.g.ProcessLimit) :
      Step s (Action.acquire pre.length)
        { s with
          g := { s.g with ProcessLimit := s.g.ProcessLimit - 1 },
          workers := pre ++ { w with pc := WPc.transfer, calls := w.calls + 1 } :: post }
  | skip {s : SyncState} {pre post : List Worker} {w : Worker} (hp : s.panicked = false)
      (hws : s.workers = pre ++ w :: post) (hpc : w.pc = WPc.select)
      (hc : s.cancelled = true) :
      Step s (Action.skip pre.length)
        { s with workers := pre ++ { w with pc := WPc.release } :: post }
  | transferOk {s : SyncState} {pre post : List Worker} {w : Worker}
      (hp : s.panicked = false) (hws : s.workers = pre ++ w :: post)
      (hpc : w.pc = WPc.transfer) :
      Step s (Action.process pre.length ProcessStep.transferOk)
        { s with workers := pre ++ { w with pc := WPc.emit } :: post }
  | transferFail {s : SyncState} {pre post : List Worker} {w : Worker}
      (hp : s.panicked = false) (hws : s.workers = pre ++ w :: post)
      (hpc : w.pc = WPc.transfer) :
      Step s (Action.process pre.length ProcessStep.transferFail)
        { s with workers := pre ++ { w with pc := WPc.release } :: post }
  | emitPanic {s : SyncState} {pre post : List Worker} {w : Worker}
      (hp : s.panicked = false) (hws : s.workers = pre ++ w :: post)
      (hpc : w.pc = WPc.emit) (hcl : s.g.updateClosed = true) :
      Step s (Action.process pre.length ProcessStep.emit) { s with panicked := true }
  | emit {s : SyncState} {pre post : List Worker} {w : Worker}
      (hp : s.panicked = false) (hws : s.workers = pre ++ w :: post)
      (hpc : w.pc = WPc.emit) (hcl : s.g.updateClosed = false)
      (hroom : s.g.update.length < updateCap) :
      Step s (Action.process pre.length ProcessStep.emit)
        { s with
          g := { s.g with update := s.g.update ++ [w.image] },
          sent := s.sent ++ [w.image],
          workers := pre ++ { w with pc := WPc.release } :: post }
  | release {s : SyncState} {pre post : List Worker} {w : Worker}
      (hp : s.panicked = false) (hws : s.workers = pre ++ w :: post)
      (hpc : w.pc = WPc.release) (hroom : s.g.ProcessLimit < s.g.ProcessLimitCap) :
      Step s (Action.release pre.length)
        { s with
          g := { s.g with ProcessLimit := s.g.ProcessLimit + 1 },
          workers := pre ++ { w with pc := WPc.wgDone } :: post }
  | handoff {s : SyncState} {pre post pre2 post2 : List Worker} {w v : Worker}
      (hp : s.panicked = false) (hcap : s.g.ProcessLimitCap = 0)
      (hws : s.workers = pre ++ w :: post) (hpc : w.pc = WPc.release)
      (hws2 : pre ++ { w with pc := WPc.wgDone } :: post = pre2 ++ v :: post2)
      (hpc2 : v.pc = WPc.select) :
      Step s (Action.handoff pre.length pre2.length)
        { s with
          workers := pre2 ++ { v with pc := WPc.transfer, calls := v.calls + 1 } :: post2 }
  | wgDonePanic {s : SyncState} {pre post : List Worker} {w : Worker}
      (hp : s.panicked = false) (hws : s.workers = pre ++ w :: post)
      (hpc : w.pc = WPc.wgDone) (hz : s.processWg = 0) :
      Step s (Action.wgDone pre.length) { s with panicked := true }
  | wgDone {s : SyncState} {pre post : List Worker} {w : Worker}
      (hp : s.panicked = false) (hws : s.workers = pre ++ w :: post)
      (hpc : w.pc = WPc.wgDone) (hz : s.processWg ≠ 0) :
      Step s (Action.wgDone pre.length)
        { s with
          processWg := s.processWg - 1,
          workers := pre ++ { w with pc := WPc.finished } :: post }
  | recv {s : SyncState} {imageName : String} {rest : List String}
      (hp : s.panicked = false) (hc : s.collector = CPc.loop)
      (hu : s.g.update = imageName :: rest) :
      Step s Action.recv
        { s with g := { s.g with update := rest }, images := s.images ++ [imageName] }
  | recvClosed {s : SyncState} (hp : s.panicked = false) (hc : s.collector = CPc.loop)
      (hu : s.g.update = []) (hcl : s.g.updateClosed = true) :
      Step s Action.recv { s with collector := CPc.changeLogDone }
  | ctxDone {s : SyncState} (hp : s.panicked = false) (hc : s.collector = CPc.loop)
      (hcan : s.cancelled = true) :
      Step s Action.ctxDone { s with collector := CPc.changeLogDone }
  | commit {s : SyncState} (hp : s.panicked = false)
      (hc : s.collector = CPc.changeLogDone) (hne : s.images ≠ []) :
      Step s Action.changeLogDone
        { s with collector := CPc.exit, commits := s.commits ++ [s.images] }
  | noCommit {s : SyncState} (hp : s.panicked = false)
      (hc : s.collector = CPc.changeLogDone) (he : s.images = []) :
      Step s Action.changeLogDone { s with collector := CPc.exit }
  | chgDonePanic {s : SyncState} (hp : s.panicked = false) (hc : s.collector = CPc.exit)
      (hz : s.chgWg = 0) :
      Step s Action.chgDone { s with panicked := true }
  | chgDone {s : SyncState} (hp : s.panicked = false) (hc : s.collector = CPc.exit)
      (hz : s.chgWg ≠ 0) :
      Step s Action.chgDone { s with collector := CPc.done, chgWg := s.chgWg - 1 }
  | wait {s : SyncState} (hp : s.panicked = false) (hm : s.main = MPc.wait)
      (hz : s.processWg = 0) :
      Step s Action.wait { s with main := MPc.close }
  | closePanic {s : SyncState} (hp : s.panicked = false) (hm : s.main = MPc.close)
      (hcl : s.g.updateClosed = true) :
      Step s Action.close { s with panicked := true }
  | close {s : SyncState} (hp : s.panicked = false) (hm : s.main = MPc.close)
      (hcl : s.g.updateClosed = false) :
      Step s Action.close
        { s with g := { s.g with updateClosed := true }, main := MPc.waitChg }
  | ret {s : SyncState} (hp : s.panicked = false) (hm : s.main = MPc.waitChg)
      (hz : s.chgWg = 0) :
      Step s Action.ret { s with main := MPc.returned, cancelled := true }

/-! ## Concrete schedules and states -/

/-- What `Init` leaves for a pool of 2 tokens and no deadline. -/
def demoGcr : Gcr :=
  { SyncTimeOut := 0, ProcessLimitCap := 2, ProcessLimit := 2, update := [],
    updateClosed := false }

/-- A complete run for the plan `["A", "C"]`: both transfers succeed, `"C"` first. -/
def demoSched : List Action :=
  [Action.acquire 0, Action.acquire 1, Action.process 1 ProcessStep.transferOk,
   Action.process 1 ProcessStep.emit, Action.process 0 ProcessStep.transferOk,
   Action.process 0 ProcessStep.emit, Action.recv, Action.recv, Action.release 0,
   Action.release 1, Action.wgDone 0, Action.wgDone 1, Action.wait, Action.close,
   Action.recv, Action.changeLogDone, Action.chgDone, Action.ret]

/-- The state in which `demoSched` ends. -/
def demoFinal : SyncState :=
  { g := { SyncTimeOut := 0, ProcessLimitCap := 2, ProcessLimit := 2, update := [],
           updateClosed := true },
    cancelled := true, timerFired := false,
    workers := [{ image := "A", pc := WPc.finished, calls := 1 },
                { image := "C", pc := WPc.finished, calls := 1 }],
    processWg := 0, collector := CPc.done, images := ["C", "A"], commits := [["C", "A"]],
    sent := ["C", "A"], chgWg := 0, main := MPc.returned, panicked := false }

/-- A second call of `Sync` on the `Gcr` that `demoSched` leaves, up to the first send on
`g.update`. -/
def demoSched2 : List Action :=
  [Action.acquire 0, Action.process 0 ProcessStep.transferOk,
   Action.process 0 ProcessStep.emit]

/-- The state in which `demoSched2` ends. -/
def demoSecond : SyncState :=
  { g := { SyncTimeOut := 0, ProcessLimitCap := 2, ProcessLimit := 1, update := [],
           updateClosed := true },
    cancelled := false, timerFired := false,
    workers := [{ image := "B", pc := WPc.emit, calls := 1 }],
    processWg := 1, collector := CPc.loop, images := [], commits := [], sent := [],
    chgWg := 1, main := MPc.wait, panicked := true }

/-- What `Init` leaves for a pool of 1 token and a deadline. -/
def lateGcr : Gcr :=
  { SyncTimeOut := 1, ProcessLimitCap := 1, ProcessLimit := 1, update := [],
    updateClosed := false }

/-- The state in which a lone worker has skipped and is blocked in its deferred send. -/
def stuckState : SyncState :=
  { g := lateGcr, cancelled := true, timerFired := true,
    workers := [{ image := "A", pc := WPc.release, calls := 0 }],
    processWg := 1, collector := CPc.done, images := [], commits := [], sent := [],
    chgWg := 0, main := MPc.wait, panicked := false }

/-- The state in which the deadline has fired during the transfer of `"A"`, the worker has
then sent its Completion Record, and the collector is still in its loop. -/
def lateState : SyncState :=
  { g := { SyncTimeOut := 1, ProcessLimitCap := 1, ProcessLimit := 0, update := ["A"],
           updateClosed := false },
    cancelled := true, timerFired := true,
    workers := [{ image := "A", pc := WPc.release, calls := 1 }],
    processWg := 1, collector := CPc.loop, images := [], commits := [], sent := ["A"],
    chgWg := 1, main := MPc.wait, panicked := false }

/-- A schedule for the empty plan: the caller closes the intake, the collector finalizes
and `Sync` returns. -/
def emptySched : List Action :=
  [Action.wait, Action.close, Action.recv, Action.changeLogDone, Action.chgDone, Action.ret]

/-- The `Gcr` that a returned call of `Sync` leaves for a pool of 1 token and a deadline:
`g.update` is closed. -/
def closedGcr : Gcr :=
  { SyncTimeOut := 1, ProcessLimitCap := 1, ProcessLimit := 1, update := [],
    updateClosed := true }

/-- The state in which `emptySched` ends from what `Init` leaves for 1 token and a
deadline. -/
def closedFinal : SyncState :=
  { g := closedGcr, cancelled := true, timerFired := false, workers := [],
    processWg := 0, collector := CPc.done, images := [], commits := [], sent := [],
    chgWg := 0, main := MPc.returned, panicked := false }

/-- A second call on `closedGcr` for the plan `["B"]`: the deadline fires, the worker
takes the `ctx.Done()` case and the collector, finding the intake closed, finalizes. -/
def blockedSched : List Action :=
  [Action.timer, Action.skip 0, Action.recv, Action.changeLogDone, Action.chgDone]

/-- The state in which `blockedSched` ends: the worker is blocked in its deferred send,
the caller in `processWg.Wait()`; nothing has panicked. -/
def blockedSecond : SyncState :=
  { g := closedGcr, cancelled := true, timerFired := true,
    workers := [{ image := "B", pc := WPc.release, calls := 0 }],
    processWg := 1, collector := CPc.done, images := [], commits := [], sent := [],
    chgWg := 0, main := MPc.wait, panicked := false }

/-- What `Init` leaves for a pool of 0 tokens and no deadline. -/
def noTokenGcr : Gcr :=
  { SyncTimeOut := 0, ProcessLimitCap := 0, ProcessLimit := 0, update := [],
    updateClosed := false }

/-- The state in which `emptySched` ends from `noTokenGcr`. -/
def noTokenFinal : SyncState :=
  { g := { noTokenGcr with updateClosed := true }, cancelled := true, timerFired := false,
    workers := [], processWg := 0, collector := CPc.done, images := [], commits := [],
    sent := [], chgWg := 0, main := MPc.returned, panicked := false }

/-- A second call on the `Gcr` of `noTokenFinal` for the plan `["B"]`, after the collector
has finalized: the worker waits for a token at its `select`, the caller in
`processWg.Wait()`; nothing has panicked. -/
def noTokenSecond : SyncState :=
  { g := { noTokenGcr with updateClosed := true }, cancelled := false, timerFired := false,
    workers := [{ image := "B", pc := WPc.select, calls := 0 }],
    processWg := 1, collector := CPc.done, images := [], commits := [], sent := [],
    chgWg := 0, main := MPc.wait, panicked := false }

/-! ## The enabled actions, case by case, and the invariants -/

theorem split_worker {ws : List Worker} {i : Nat} {w : Worker} (h : ws[i]? = some w) :
    ∃ pre post, ws = pre ++ w :: post ∧ pre.length = i ∧
      ∀ w', ws.set i w' = pre ++ w' :: post := by
  induction ws generalizing i with
  | nil => simp at h
  | cons x xs ih =>
    cases i with
    | zero =>
      simp at h
      subst h
      exact ⟨[], xs, rfl, rfl, fun _ => rfl⟩
    | succ j =>
      simp at h
      obtain ⟨pre, post, h1, h2, h3⟩ := ih h
      refine ⟨x :: pre, post, by simp [h1], by simp [h2], fun w' => ?_⟩
      simp [h3 w']

theorem step_sound {s s' : SyncState} {a : Action} (h : step s a = some s') :
    Step s a s' := by
  unfold step at h
  split at h
  · simp at h
  rename_i hp
  simp only [Bool.not_eq_true] at hp
  cases a with
  | timer =>
    simp only at h
    split at h
    · rename_i hc
      simp only [Option.some.injEq] at h
      subst h
      exact Step.timer hp hc.1 hc.2
    · simp at h
  | acquire i =>
    simp only [Option.bind_eq_some] at h
    obtain ⟨w, hw, h⟩ := h
    obtain ⟨pre, post, hws, hlen, hset⟩ := split_worker hw
    split at h
    · rename_i hc
      simp only [Option.some.injEq] at h
      subst h hlen
      rw [hset]
      exact Step.acquire hp hws hc.1 hc.2
    · simp at h
  | skip i =>
    simp only [Option.bind_eq_some] at h
    obtain ⟨w, hw, h⟩ := h
    obtain ⟨pre, post, hws, hlen, hset⟩ := split_worker hw
    split at h
    · rename_i hc
      simp only [Option.some.injEq] at h
      subst h hlen
      rw [hset]
      exact Step.skip hp hws hc.1 hc.2
    · simp at h
  | process i p =>
    simp only [Option.bind_eq_some] at h
    obtain ⟨w, hw, h⟩ := h
    obtain ⟨pre, post, hws, hlen, hset⟩ := split_worker hw
    cases p with
    | transferOk =>
      simp only [Process] at h
      split at h
      · rename_i hc
        simp only [Option.some.injEq] at h
        subst h hlen
        rw [hset]
        exact Step.transferOk hp hws hc
      · simp at h
    | transferFail =>
      simp only [Process] at h
      split at h
      · rename_i hc
        simp only [Option.some.injEq] at h
        subst h hlen
        rw [hset]
        exact Step.transferFail hp hws hc
      · simp at h
    | emit =>
      simp only [Process] at h
      split at h
      · rename_i hc
        split at h
        · rename_i hcl
          simp only [Option.some.injEq] at h
          subst h hlen
          exact Step.emitPanic hp hws hc hcl
        · rename_i hcl
          simp only [Bool.not_eq_true] at hcl
          split at h
          · rename_i hroom
            simp only [Option.some.injEq] at h
            subst h hlen
            rw [hset]
            exact Step.emit hp hws hc hcl hroom
          · simp at h
      · simp at h
  | release i =>
    simp only [Option.bind_eq_some] at h
    obtain ⟨w, hw, h⟩ := h
    obtain ⟨pre, post, hws, hlen, hset⟩ := split_worker hw
    split at h
    · rename_i hc
      simp only [sendToken] at h
      split at h
      · rename_i hroom
        simp only [Option.map_some', Option.some.injEq] at h
        subst h hlen
        rw [hset]
        exact Step.release hp hws hc hroom
      · simp at h
    · simp at h
  | handoff i j =>
    simp only [Option.bind_eq_some] at h
    obtain ⟨w, hw, v, hv, h⟩ := h
    split at h
    · rename_i hc
      obtain ⟨hcap, hpc, hpc2⟩ := hc
      have hij : i ≠ j := by
        intro hij
        subst hij
        rw [hw] at hv
        simp only [Option.some.injEq] at hv
        subst hv
        rw [hpc] at hpc2
        exact absurd hpc2 (by decide)
      obtain ⟨pre, post, hws, hlen, hset⟩ := split_worker hw
      have hv2 : (s.workers.set i { w with pc := WPc.wgDone })[j]? = some v := by
        rw [List.getElem?_set_ne hij]
        exact hv
      obtain ⟨pre2, post2, hws2, hlen2, hset2⟩ := split_worker hv2
      simp only [Option.some.injEq] at h
      subst h hlen hlen2
      rw [hset2]
      rw [hset] at hws2
      exact Step.handoff hp hcap hws hpc hws2 hpc2
    · simp at h
  | wgDone i =>
    simp only [Option.bind_eq_some] at h
    obtain ⟨w, hw, h⟩ := h
    obtain ⟨pre, post, hws, hlen, hset⟩ := split_worker hw
    split at h
    · rename_i hc
      split at h
      · rename_i hz
        simp only [Option.some.injEq] at h
        subst h hlen
        exact Step.wgDonePanic hp hws hc hz
      · rename_i hz
        simp only [Option.some.injEq] at h
        subst h hlen
        rw [hset]
        exact Step.wgDone hp hws hc hz
    · simp at h
  | recv =>
    simp only at h
    split at h
    · rename_i hc
      split at h
      · rename_i imageName rest hu
        simp only [Option.some.injEq] at h
        subst h
        exact Step.recv hp hc hu
      · rename_i hu
        split at h
        · rename_i hcl
          simp only [Option.some.injEq] at h
          subst h
          exact Step.recvClosed hp hc hu hcl
        · simp at h
    · simp at h
  | ctxDone =>
    simp only at h
    split at h
    · rename_i hc
      simp only [Option.some.injEq] at h
      subst h
      exact Step.ctxDone hp hc.1 hc.2
    · simp at h
  | changeLogDone =>
    simp only at h
    split at h
    · rename_i hc
      split at h
      · rename_i hlen
        simp only [Option.some.injEq] at h
        subst h
        exact Step.commit hp hc (List.ne_nil_of_length_pos hlen)
      · rename_i hlen
        simp only [Option.some.injEq] at h
        subst h
        exact Step.noCommit hp hc (by simpa using hlen)
    · simp at h
  | chgDone =>
    simp only at h
    split at h
    · rename_i hc
      split at h
      · rename_i hz
        simp only [Option.some.injEq] at h
        subst h
        exact Step.chgDonePanic hp hc hz
      · rename_i hz
        simp only [Option.some.injEq] at h
        subst h
        exact Step.chgDone hp hc hz
    · simp at h
  | wait =>
    simp only at h
    split at h
    · rename_i hc
      simp only [Option.some.injEq] at h
      subst h
      exact Step.wait hp hc.1 hc.2
    · simp at h
  | close =>
    simp only at h
    split at h
    · rename_i hc
      split at h
      · rename_i hcl
        simp only [Option.some.injEq] at h
        subst h
        exact Step.closePanic hp hc hcl
      · rename_i hcl
        simp only [Bool.not_eq_true] at hcl
        simp only [Option.some.injEq] at h
        subst h
        exact Step.close hp hc hcl
    · simp at h
  | ret =>
    simp only at h
    split at h
    · rename_i hc
      simp only [Option.some.injEq] at h
      subst h
      exact Step.ret hp hc.1 hc.2
    · simp at h

theorem run_invariant (I : SyncState → Prop)
    (hstep : ∀ s a s', I s → Step s a s' → I s') :
    ∀ (sched : List Action) (s s' : SyncState), I s → run s sched = some s' → I s' := by
  intro sched
  induction sched with
  | nil =>
    intro s s' hI h
    simp [run] at h
    subst h
    exact hI
  | cons a as ih =>
    intro s s' hI h
    simp only [run, Option.bind_eq_some] at h
    obtain ⟨s1, h1, h2⟩ := h
    exact ih s1 s' (hstep s a s1 hI (step_sound h1)) h2

theorem run_invariant_on (ok : Action → Bool) (I : SyncState → Prop)
    (hstep : ∀ s a s', ok a = true → I s → Step s a s' → I s') :
    ∀ (sched : List Action) (s s' : SyncState), (∀ a ∈ sched, ok a = true) → I s →
      run s sched = some s' → I s' := by
  intro sched
  induction sched with
  | nil =>
    intro s s' _ hI h
    simp [run] at h
    subst h
    exact hI
  | cons a as ih =>
    intro s s' hok hI h
    simp only [run, Option.bind_eq_some] at h
    obtain ⟨s1, h1, h2⟩ := h
    exact ih s1 s' (fun b hb => hok b (List.mem_cons_of_mem _ hb))
      (hstep s a s1 (hok a (List.mem_cons_self _ _)) hI (step_sound h1)) h2

theorem inv_start (g0 : Gcr) (plan : List String)
    (h : g0.ProcessLimit ≤ g0.ProcessLimitCap) : Inv g0 plan (start g0 plan) := by
  have h1 : ∀ l : List String, List.countP unfinished
      (l.map fun n => ({ image := n, pc := WPc.select, calls := 0 } : Worker)) = l.length := by
    intro l
    induction l with
    | nil => rfl
    | cons x xs ih => simp [List.countP_cons, ih, unfinished]
  have h2 : ∀ l : List String, List.countP holding
      (l.map fun n => ({ image := n, pc := WPc.select, calls := 0 } : Worker)) = 0 := by
    intro l
    induction l with
    | nil => rfl
    | cons x xs ih => simp [List.countP_cons, ih, holding]
  have h3 : ∀ l : List String, List.countP surplus
      (l.map fun n => ({ image := n, pc := WPc.select, calls := 0 } : Worker)) = 0 := by
    intro l
    induction l with
    | nil => rfl
    | cons x xs ih => simp [List.countP_cons, ih, surplus]
  refine ⟨rfl, rfl, ?_, ?_, ?_, h, ?_, ?_, ?_, rfl, ?_, ?_, ?_, ?_, ?_, ?_, ?_, ?_, ?_⟩ <;>
    simp [start, h1, h2, h3, Worker.ok, Function.comp_def]

theorem wf_replace {pre post : List Worker} {w w' : Worker} {b : Bool}
    (h : ∀ x ∈ pre ++ w :: post, x.ok b) (hw : w'.ok b) :
    ∀ x ∈ pre ++ w' :: post, x.ok b := by
  intro x hx
  simp only [List.mem_append, List.mem_cons] at hx h
  rcases hx with hx | rfl | hx
  · exact h x (Or.inl hx)
  · exact hw
  · exact h x (Or.inr (Or.inr hx))

set_option maxHeartbeats 4000000 in
theorem inv_step {g0 : Gcr} {plan : List String} {s s' : SyncState} {a : Action}
    (hI : Inv g0 plan s) (h : Step s a s') : Inv g0 plan s' := by
  obtain ⟨h1, h2, h3, h4, h5, h6, h7, h8, h9, h10, h11, h12, h13, h14, h15, h16, h17, h18,
    h19⟩ := hI
  cases h with
  | timer hp hT hf =>
    refine ⟨?_, ?_, ?_, ?_, ?_, ?_, fun w hw => ⟨(h7 w hw).1, (h7 w hw).2.1, (h7 w hw).2.2.1,
      by simp⟩, ?_, ?_, ?_, ?_, ?_, ?_, ?_, ?_, ?_, ?_, ?_, ?_⟩
    all_goals simp_all [List.countP_append, List.countP_cons, unfinished, holding, surplus,
      Worker.ok]
  | acquire hp hws hpc ht =>
    rw [hws] at h7
    have h7a := h7 _ (List.mem_append_right _ (List.mem_cons_self _ _))
    refine ⟨?_, ?_, ?_, ?_, ?_, ?_, wf_replace h7 ?_, ?_, ?_, ?_, ?_, ?_, ?_, ?_, ?_, ?_, ?_,
      ?_, ?_⟩
    all_goals simp_all [List.countP_append, List.countP_cons, unfinished, holding, surplus,
      Worker.ok]
    all_goals omega
  | skip hp hws hpc hc =>
    rw [hws] at h7
    have h7a := h7 _ (List.mem_append_right _ (List.mem_cons_self _ _))
    refine ⟨?_, ?_, ?_, ?_, ?_, ?_, wf_replace h7 ?_, ?_, ?_, ?_, ?_, ?_, ?_, ?_, ?_, ?_, ?_,
      ?_, ?_⟩
    all_goals simp_all [List.countP_append, List.countP_cons, unfinished, holding, surplus,
      Worker.ok]
  | transferOk hp hws hpc =>
    rw [hws] at h7
    have h7a := h7 _ (List.mem_append_right _ (List.mem_cons_self _ _))
    refine ⟨?_, ?_, ?_, ?_, ?_, ?_, wf_replace h7 ?_, ?_, ?_, ?_, ?_, ?_, ?_, ?_, ?_, ?_, ?_,
      ?_, ?_⟩
    all_goals simp_all [List.countP_append, List.countP_cons, unfinished, holding, surplus,
      Worker.ok]
  | transferFail hp hws hpc =>
    rw [hws] at h7
    have h7a := h7 _ (List.mem_append_right _ (List.mem_cons_self _ _))
    refine ⟨?_, ?_, ?_, ?_, ?_, ?_, wf_replace h7 ?_, ?_, ?_, ?_, ?_, ?_, ?_, ?_, ?_, ?_, ?_,
      ?_, ?_⟩
    all_goals simp_all [List.countP_append, List.countP_cons, unfinished, holding, surplus,
      Worker.ok]
  | emitPanic hp hws hpc hcl =>
    refine ⟨?_, ?_, ?_, ?_, ?_, ?_, h7, ?_, ?_, ?_, ?_, ?_, ?_, ?_, ?_, ?_, ?_, ?_, ?_⟩
    all_goals simp_all [List.countP_append, List.countP_cons, unfinished, holding, surplus,
      Worker.ok]
  | @emit pre post w hp hws hpc hcl hroom =>
    rw [hws] at h7
    have h7a := h7 _ (List.mem_append_right _ (List.mem_cons_self _ _))
    have h19e := congrArg (fun l => l ++ [w.image]) h19
    simp only [List.append_assoc] at h19e
    refine ⟨?_, ?_, ?_, ?_, ?_, ?_, wf_replace h7 ?_, ?_, ?_, ?_, ?_, ?_, ?_, ?_, ?_, ?_, ?_,
      ?_, h19e⟩
    all_goals simp_all [List.countP_append, List.countP_cons, unfinished, holding, surplus,
      Worker.ok]
  | release hp hws hpc hroom =>
    rw [hws] at h7
    have h7a := h7 _ (List.mem_append_right _ (List.mem_cons_self _ _))
    refine ⟨?_, ?_, ?_, ?_, ?_, ?_, wf_replace h7 ?_, ?_, ?_, ?_, ?_, ?_, ?_, ?_, ?_, ?_, ?_,
      ?_, ?_⟩
    all_goals simp_all [List.countP_append, List.countP_cons, unfinished, holding, surplus,
      Worker.ok]
    all_goals first | omega | (split_ifs at * <;> omega)
  | @handoff pre post pre2 post2 w v hp hcap hws hpc hws2 hpc2 =>
    clear hcap
    rw [hws] at h7
    have h7a := h7 _ (List.mem_append_right _ (List.mem_cons_self _ _))
    have h7m : ∀ x ∈ pre ++ { w with pc := WPc.wgDone } :: post, x.ok s.timerFired :=
      wf_replace h7 (by simp_all [Worker.ok])
    rw [hws2] at h7m
    have h7b := h7m _ (List.mem_append_right _ (List.mem_cons_self _ _))
    have e1 := congrArg (List.countP unfinished) hws2
    have e2 := congrArg (List.countP holding) hws2
    have e3 := congrArg (List.countP surplus) hws2
    have e4 := congrArg (List.map fun x => x.image) hws2
    rw [hws] at h3 h4 h5
    clear hws2 h7 hws
    refine ⟨?_, ?_, ?_, ?_, ?_, ?_, wf_replace h7m ?_, ?_, ?_, ?_, ?_, ?_, ?_, ?_, ?_, ?_, ?_,
      ?_, ?_⟩
    all_goals simp_all [List.countP_append, List.countP_cons, unfinished, holding, surplus,
      Worker.ok]
    all_goals first | omega | (split_ifs at * <;> omega)
  | wgDonePanic hp hws hpc hz =>
    refine ⟨?_, ?_, ?_, ?_, ?_, ?_, h7, ?_, ?_, ?_, ?_, ?_, ?_, ?_, ?_, ?_, ?_, ?_, ?_⟩
    all_goals simp_all [List.countP_append, List.countP_cons, unfinished, holding, surplus,
      Worker.ok]
    all_goals omega
  | wgDone hp hws hpc hz =>
    rw [hws] at h7
    have h7a := h7 _ (List.mem_append_right _ (List.mem_cons_self _ _))
    refine ⟨?_, ?_, ?_, ?_, ?_, ?_, wf_replace h7 ?_, ?_, ?_, ?_, ?_, ?_, ?_, ?_, ?_, ?_, ?_,
      ?_, ?_⟩
    all_goals simp_all [List.countP_append, List.countP_cons, unfinished, holding, surplus,
      Worker.ok]
  | recv hp hc hu =>
    refine ⟨?_, ?_, ?_, ?_, ?_, ?_, h7, ?_, ?_, ?_, ?_, ?_, ?_, ?_, ?_, ?_, ?_, ?_, ?_⟩
    all_goals simp_all [List.countP_append, List.countP_cons, unfinished, holding, surplus,
      Worker.ok]
  | recvClosed hp hc hu hcl =>
    refine ⟨?_, ?_, ?_, ?_, ?_, ?_, h7, ?_, ?_, ?_, ?_, ?_, ?_, ?_, ?_, ?_, ?_, ?_, ?_⟩
    all_goals simp_all [List.countP_append, List.countP_cons, unfinished, holding, surplus,
      Worker.ok]
  | ctxDone hp hc hcan =>
    refine ⟨?_, ?_, ?_, ?_, ?_, ?_, h7, ?_, ?_, ?_, ?_, ?_, ?_, ?_, ?_, ?_, ?_, ?_, ?_⟩
    all_goals simp_all [List.countP_append, List.countP_cons, unfinished, holding, surplus,
      Worker.ok]
  | commit hp hc hne =>
    refine ⟨?_, ?_, ?_, ?_, ?_, ?_, h7, ?_, ?_, ?_, ?_, ?_, ?_, ?_, ?_, ?_, ?_, ?_, ?_⟩
    all_goals simp_all [List.countP_append, List.countP_cons, unfinished, holding, surplus,
      Worker.ok]
  | noCommit hp hc he =>
    refine ⟨?_, ?_, ?_, ?_, ?_, ?_, h7, ?_, ?_, ?_, ?_, ?_, ?_, ?_, ?_, ?_, ?_, ?_, ?_⟩
    all_goals simp_all [List.countP_append, List.countP_cons, unfinished, holding, surplus,
      Worker.ok]
  | chgDonePanic hp hc hz =>
    refine ⟨?_, ?_, ?_, ?_, ?_, ?_, h7, ?_, ?_, ?_, ?_, ?_, ?_, ?_, ?_, ?_, ?_, ?_, ?_⟩
    all_goals simp_all [List.countP_append, List.countP_cons, unfinished, holding, surplus,
      Worker.ok]
  | chgDone hp hc hz =>
    refine ⟨?_, ?_, ?_, ?_, ?_, ?_, h7, ?_, ?_, ?_, ?_, ?_, ?_, ?_, ?_, ?_, ?_, ?_, ?_⟩
    all_goals simp_all [List.countP_append, List.countP_cons, unfinished, holding, surplus,
      Worker.ok]
  | wait hp hm hz =>
    refine ⟨?_, ?_, ?_, ?_, ?_, ?_, h7, ?_, ?_, ?_, ?_, ?_, ?_, ?_, ?_, ?_, ?_, ?_, ?_⟩
    all_goals simp_all [List.countP_append, List.countP_cons, unfinished, holding, surplus,
      Worker.ok]
  | closePanic hp hm hcl =>
    refine ⟨?_, ?_, ?_, ?_, ?_, ?_, h7, ?_, ?_, ?_, ?_, ?_, ?_, ?_, ?_, ?_, ?_, ?_, ?_⟩
    all_goals simp_all [List.countP_append, List.countP_cons, unfinished, holding, surplus,
      Worker.ok]
  | close hp hm hcl =>
    refine ⟨?_, ?_, ?_, ?_, ?_, ?_, h7, ?_, ?_, ?_, ?_, ?_, ?_, ?_, ?_, ?_, ?_, ?_, ?_⟩
    all_goals simp_all [List.countP_append, List.countP_cons, unfinished, holding, surplus,
      Worker.ok]
  | ret hp hm hz =>
    have hd : s.collector = CPc.done := by
      by_contra hne
      simp [hne] at h10
      omega
    have hw0 : s.processWg = 0 := h8 (by simp [hm])
    have hcl : s.g.updateClosed = true := h9 (Or.inl hm)
    refine ⟨h1, h2, h3, h4, h5, h6, h7, fun _ => hw0, fun _ => hcl, h10, fun _ => hd, ?_, h13,
      h14, fun _ => Or.inr rfl, h16, ?_, ?_, h19⟩
    · intro hc
      simp [hd] at hc
    · intro hg
      exact ⟨hp, fun _ => Or.inr rfl⟩
    · intro hg
      have := (h18 hg).2
      simp [hm] at this

theorem fillLimit_ok (cap : Nat) :
    ∀ (n t : Nat), t + n ≤ cap → fillLimit cap n t = some (t + n) := by
  intro n
  induction n with
  | zero => intro t _; rfl
  | succ k ih =>
    intro t h
    have h1 : t < cap := by omega
    simp only [fillLimit, sendToken, if_pos h1, Option.some_bind]
    rw [ih (t + 1) (by omega)]
    congr 1
    omega

/-- What `Init` leaves: `P` tokens in `ProcessLimit`, an empty open `update`. -/
theorem Init_newGcr (P : Nat) (T : Int) :
    Init (newGcr P T) = some { newGcr P T with ProcessLimit := P } := by
  simp [Init, newGcr, fillLimit_ok P P 0 (by omega)]

theorem Init_spec {P : Nat} {T : Int} {g : Gcr} (h : Init (newGcr P T) = some g) :
    g.SyncTimeOut = T ∧ g.ProcessLimitCap = P ∧ g.ProcessLimit = P ∧ g.update = [] ∧
      g.updateClosed = false := by
  rw [Init_newGcr] at h
  simp only [Option.some.injEq] at h
  subst h
  simp [newGcr]

theorem inv_of_run {g0 : Gcr} {plan : List String} (h0 : g0.ProcessLimit ≤ g0.ProcessLimitCap)
    {sched : List Action} {s : SyncState} (h : run (start g0 plan) sched = some s) :
    Inv g0 plan s :=
  run_invariant (Inv g0 plan) (fun _ _ _ hI hs => inv_step hI hs) sched _ _
    (inv_start g0 plan h0) h

theorem all_finished {ws : List Worker} (h : ws.countP unfinished = 0) :
    ∀ w ∈ ws, w.pc = WPc.finished := by
  intro w hw
  rw [List.countP_eq_zero] at h
  have := h w hw
  simpa [unfinished] using this

theorem inv_finished {g0 : Gcr} {plan : List String} {s : SyncState} (hI : Inv g0 plan s)
    (hm : s.main ≠ MPc.wait) : ∀ w ∈ s.workers, w.pc = WPc.finished :=
  all_finished (by rw [← hI.wg]; exact hI.mainWg hm)

/-- A run in which some worker took the `ctx.Done()` case never returns: when `Sync` has
returned, every worker has called `g.Process`. -/
theorem returned_without_skip {g0 : Gcr} {plan : List String} {s : SyncState}
    (hI : Inv g0 plan s) (hfull : g0.ProcessLimit = g0.ProcessLimitCap)
    (hret : s.main = MPc.returned) : ∀ w ∈ s.workers, w.calls = 1 := by
  have hfin := inv_finished hI (by simp [hret])
  have hh : s.workers.countP holding = 0 := by
    rw [List.countP_eq_zero]
    intro w hw
    simp [holding, hfin w hw]
  have hs : s.workers.countP surplus = 0 := by
    have ht := hI.tokens
    have hr := hI.room
    have hc := hI.cap
    omega
  rw [List.countP_eq_zero] at hs
  intro w hw
  have h1 := hs w hw
  have h2 := (hI.wf w hw).1
  simp only [surplus, hfin w hw, or_true, true_and, decide_eq_true_eq] at h1
  omega

theorem fuel_step {s s' : SyncState} {a : Action} (h : Step s a s') : fuel s' < fuel s := by
  cases h with
  | @handoff pre post pre2 post2 w v hp hcap hws hpc hws2 hpc2 =>
    have e := congrArg (fun l => (List.map (fun x => x.pc.rank) l).sum) hws2
    simp only [List.map_append, List.map_cons, List.sum_append, List.sum_cons, WPc.rank,
      hpc2] at e
    simp only [fuel, hws, List.map_append, List.map_cons, List.sum_append, List.sum_cons,
      WPc.rank, hpc, hpc2]
    omega
  | _ =>
    simp_all [fuel, WPc.rank, CPc.rank, MPc.rank, List.sum_append, List.sum_cons] <;> omega

theorem fuel_run : ∀ (sched : List Action) (s s' : SyncState),
    run s sched = some s' → sched.length + fuel s' ≤ fuel s := by
  intro sched
  induction sched with
  | nil =>
    intro s s' h
    simp [run] at h
    subst h
    simp
  | cons a as ih =>
    intro s s' h
    simp only [run, Option.bind_eq_some] at h
    obtain ⟨s1, h1, h2⟩ := h
    have := ih s1 s' h2
    have := fuel_step (step_sound h1)
    simp only [List.length_cons]
    omega

theorem fuel_start (g : Gcr) (plan : List String) :
    fuel (start g plan) = 6 * plan.length + g.update.length + 8 := by
  have h1 : ∀ l : List String, (l.map fun _ => (6 : Nat)).sum = 6 * l.length := by
    intro l
    induction l with
    | nil => rfl
    | cons x xs ih =>
      simp only [List.map_cons, List.sum_cons, List.length_cons, ih]
      omega
  have h2 : (List.map (fun w => w.pc.rank)
      (plan.map fun n => ({ image := n, pc := WPc.select, calls := 0 } : Worker)))
      = plan.map fun _ => (6 : Nat) := by
    simp [List.map_map, Function.comp_def, WPc.rank]
  simp only [fuel, start, h2, h1, CPc.rank, MPc.rank]
  simp

theorem exists_of_countP_pos {p : Worker → Bool} {ws : List Worker} (h : 0 < ws.countP p) :
    ∃ (i : Nat) (w : Worker), ws[i]? = some w ∧ p w = true := by
  obtain ⟨w, hw, hp⟩ := List.countP_pos_iff.mp h
  obtain ⟨i, hi⟩ := List.mem_iff_getElem?.mp hw
  exact ⟨i, w, hi, hp⟩

/-- As long as the timer has not fired, no worker has sent a token it had not taken. -/
theorem no_surplus_of_not_fired {g0 : Gcr} {plan : List String} {s : SyncState}
    (hI : Inv g0 plan s) (hf : s.timerFired = false) : s.workers.countP surplus = 0 := by
  rw [List.countP_eq_zero]
  intro w hw
  have := (hI.wf w hw).2.2.2 hf
  simp only [surplus, Bool.not_eq_true, decide_eq_false_iff_not, not_and]
  intro hpc hc
  have := this (by rcases hpc with h | h <;> simp [h])
  omega

/-- As long as the timer has not fired, at most as many workers are inside `g.Process` as
the pool had tokens at the start. -/
theorem in_process_le_pool {g0 : Gcr} {plan : List String} {s : SyncState}
    (hI : Inv g0 plan s) (hf : s.timerFired = false) : inProcess s ≤ g0.ProcessLimit := by
  have hsur := no_surplus_of_not_fired hI hf
  have htok := hI.tokens
  have hle : inProcess s ≤ s.workers.countP holding := by
    unfold inProcess
    apply List.countP_mono_left
    intro w _ hw
    simp only [decide_eq_true_eq] at hw
    simp only [holding, decide_eq_true_eq]
    rcases hw with h | h
    · exact Or.inl h
    · exact Or.inr (Or.inl h)
  omega

/-- Once no worker is left, the caller or the collector can always move, without the
timer firing. -/
theorem progress_main {g0 : Gcr} {plan : List String} {s : SyncState} (hI : Inv g0 plan s)
    (hp : s.panicked = false) (hm : s.main ≠ MPc.returned) (hwg : s.processWg = 0) :
    ∃ a s', a.quiet = true ∧ step s a = some s' ∧ s'.timerFired = s.timerFired := by
  cases hmain : s.main with
  | returned => exact absurd hmain hm
  | wait => exact ⟨Action.wait, _, rfl, by simp [step, hp, hmain, hwg]; rfl, by rfl⟩
  | close =>
    cases hcl : s.g.updateClosed with
    | true => exact ⟨Action.close, _, rfl, by simp [step, hp, hmain, hcl]; rfl, by rfl⟩
    | false => exact ⟨Action.close, _, rfl, by simp [step, hp, hmain, hcl]; rfl, by rfl⟩
  | waitChg =>
    have hcl := hI.closed (Or.inl hmain)
    have hchg := hI.chg
    cases hc : s.collector with
    | done => exact ⟨Action.ret, _, rfl, by simp [step, hp, hmain, hchg, hc]; rfl, by rfl⟩
    | exit => exact ⟨Action.chgDone, _, rfl, by simp [step, hp, hchg, hc]; rfl, by rfl⟩
    | changeLogDone =>
      by_cases hi : 0 < s.images.length
      · exact ⟨Action.changeLogDone, _, rfl, by simp [step, hp, hc, hi]; rfl, by rfl⟩
      · exact ⟨Action.changeLogDone, _, rfl, by simp [step, hp, hc, hi]; rfl, by rfl⟩
    | loop =>
      cases hu : s.g.update with
      | nil => exact ⟨Action.recv, _, rfl, by simp [step, hp, hc, hu, hcl]; rfl, by rfl⟩
      | cons x rest => exact ⟨Action.recv, _, rfl, by simp [step, hp, hc, hu]; rfl, by rfl⟩

/-- While the timer has not fired and the pool has at least one token in all, some
goroutine can move, without the timer firing, as long as a worker has not returned. -/
theorem progress_workers {g0 : Gcr} {plan : List String} {s : SyncState}
    (hI : Inv g0 plan s) (hfull : g0.ProcessLimit = g0.ProcessLimitCap)
    (hP : 1 ≤ g0.ProcessLimitCap) (hp : s.panicked = false)
    (hf : s.timerFired = false) (hwg : s.processWg ≠ 0) :
    ∃ a s', a.quiet = true ∧ step s a = some s' ∧ s'.timerFired = s.timerFired := by
  have hsur := no_surplus_of_not_fired hI hf
  have htok := hI.tokens
  have hcap := hI.cap
  -- a worker that is inside `g.Process` or about to give its token back can move
  have hold : ∀ (i : Nat) (w : Worker), s.workers[i]? = some w → holding w = true →
      ∃ a s', a.quiet = true ∧ step s a = some s' ∧ s'.timerFired = s.timerFired := by
    intro i w hwi hh
    have hpos : 0 < s.workers.countP holding :=
      List.countP_pos_iff.mpr ⟨w, List.getElem?_mem hwi, hh⟩
    simp only [holding, decide_eq_true_eq] at hh
    rcases hh with hpc | hpc | ⟨hpc, _⟩
    · exact ⟨Action.process i ProcessStep.transferOk, _, rfl, by
        simp [step, hp, hwi, Process, hpc]; rfl, by rfl⟩
    · cases hcl : s.g.updateClosed with
      | true =>
        exact ⟨Action.process i ProcessStep.emit, _, rfl, by
          simp [step, hp, hwi, Process, hpc, hcl]; rfl, by rfl⟩
      | false =>
        by_cases hroom : s.g.update.length < updateCap
        · exact ⟨Action.process i ProcessStep.emit, _, rfl, by
            simp [step, hp, hwi, Process, hpc, hcl, hroom]; rfl, by rfl⟩
        · have hloop : s.collector = CPc.loop := by
            by_contra hne
            rcases hI.left hne with h | h
            · simp [hf] at h
            · simp [h.1, updateCap] at hroom
          cases hu : s.g.update with
          | nil => simp [hu, updateCap] at hroom
          | cons x rest =>
            exact ⟨Action.recv, _, rfl, by simp [step, hp, hloop, hu]; rfl, by rfl⟩
    · have hroom : s.g.ProcessLimit < s.g.ProcessLimitCap := by omega
      exact ⟨Action.release i, _, rfl, by
        simp [step, hp, hwi, hpc, sendToken, hroom]; rfl, by rfl⟩
  have hpos : 0 < s.workers.countP unfinished := by
    rw [← hI.wg]
    omega
  obtain ⟨i, w, hwi, hu⟩ := exists_of_countP_pos hpos
  simp only [unfinished, ne_eq, decide_not, Bool.not_eq_true', decide_eq_false_iff_not] at hu
  have hwf := hI.wf w (List.getElem?_mem hwi)
  cases hpc : w.pc with
  | finished => exact absurd hpc hu
  | transfer => exact hold i w hwi (by simp [holding, hpc])
  | emit => exact hold i w hwi (by simp [holding, hpc])
  | release =>
    have := hwf.2.2.2 hf (by simp [hpc])
    exact hold i w hwi (by simp [holding, hpc, this])
  | wgDone => exact ⟨Action.wgDone i, _, rfl, by simp [step, hp, hwi, hpc, hwg]; rfl, by rfl⟩
  | select =>
    by_cases ht : 0 < s.g.ProcessLimit
    · exact ⟨Action.acquire i, _, rfl, by simp [step, hp, hwi, hpc, ht]; rfl, by rfl⟩
    · have hpos2 : 0 < s.workers.countP holding := by omega
      obtain ⟨j, w2, hwj, hh⟩ := exists_of_countP_pos hpos2
      exact hold j w2 hwj hh

/-- While the timer has not fired, nothing has panicked and `Sync` has not returned, some
goroutine can move without the timer firing, provided the pool was started full with at
least one token. -/
theorem progress {g0 : Gcr} {plan : List String} {s : SyncState}
    (hI : Inv g0 plan s) (hfull : g0.ProcessLimit = g0.ProcessLimitCap)
    (hP : 1 ≤ g0.ProcessLimitCap) (hp : s.panicked = false)
    (hf : s.timerFired = false) (hm : s.main ≠ MPc.returned) :
    ∃ a s', a.quiet = true ∧ step s a = some s' ∧ s'.timerFired = s.timerFired := by
  by_cases hwg : s.processWg = 0
  · exact progress_main hI hp hm hwg
  · exact progress_workers hI hfull hP hp hf hwg

/-- From a state in which the timer has not fired there is a quiet run (the timer does
not fire, no transfer fails) that ends, after finitely many steps, with `Sync` returned
or with a panic. -/
theorem can_finish {g0 : Gcr} {plan : List String}
    (hfull : g0.ProcessLimit = g0.ProcessLimitCap) (hP : 1 ≤ g0.ProcessLimitCap) :
    ∀ (n : Nat) (s : SyncState), fuel s ≤ n → Inv g0 plan s → s.timerFired = false →
      ∃ sched s', (∀ a ∈ sched, a.quiet = true) ∧ run s sched = some s' ∧
        s'.timerFired = false ∧ (s'.main = MPc.returned ∨ s'.panicked = true) := by
  intro n
  induction n with
  | zero =>
    intro s hn hI hf
    have : 0 < fuel s := by
      simp only [fuel, hf]
      simp
    omega
  | succ k ih =>
    intro s hn hI hf
    by_cases hp : s.panicked = true
    · exact ⟨[], s, by simp, rfl, hf, Or.inr hp⟩
    by_cases hm : s.main = MPc.returned
    · exact ⟨[], s, by simp, rfl, hf, Or.inl hm⟩
    simp only [Bool.not_eq_true] at hp
    obtain ⟨a, s1, hq, hs, hf1⟩ := progress hI hfull hP hp hf hm
    have hlt := fuel_step (step_sound hs)
    obtain ⟨sched, s', hqs, hrun, hf', hend⟩ :=
      ih s1 (by omega) (inv_step hI (step_sound hs)) (by rw [hf1, hf])
    refine ⟨a :: sched, s', ?_, by simp [run, hs, hrun], hf', hend⟩
    intro b hb
    rcases List.mem_cons.mp hb with h | h
    · rw [h]
      exact hq
    · exact hqs b h

set_option maxHeartbeats 4000000 in
theorem quiet_step {g0 : Gcr} {plan : List String} {s s' : SyncState} {a : Action}
    (hq : a.quiet = true) (hQ : Quiet g0 plan s) (h : Step s a s') : Quiet g0 plan s' := by
  obtain ⟨hI, hf, hacc⟩ := hQ
  refine ⟨inv_step hI h, ?_, ?_⟩
  · cases h <;> simp_all [Action.quiet]
  · have h4 := hI.wg
    have h8 := hI.mainWg
    have h15 := hI.cancel
    clear hI
    intro x
    have hx := hacc x
    clear hacc
    cases h with
    | @handoff pre post pre2 post2 w v hp hcap hws hpc hws2 hpc2 =>
      have e := congrArg (List.countP (pending x)) hws2
      simp only [List.countP_append, List.countP_cons, pending, hpc2] at e
      simp only [hws, List.countP_append, List.countP_cons, pending, hpc] at hx
      simp only [List.countP_append, List.countP_cons, pending]
      simp at e hx ⊢
      omega
    | _ =>
      simp_all [Action.quiet, List.countP_append, List.countP_cons, List.count_append,
        List.count_cons, pending, unfinished] <;> split_ifs at hx ⊢ <;> omega

theorem quiet_start (g0 : Gcr) (plan : List String)
    (h : g0.ProcessLimit ≤ g0.ProcessLimitCap) (hu : g0.update = []) :
    Quiet g0 plan (start g0 plan) := by
  refine ⟨inv_start g0 plan h, rfl, ?_⟩
  intro x
  have : ∀ l : List String, List.countP (pending x)
      (l.map fun n => ({ image := n, pc := WPc.select, calls := 0 } : Worker))
      = l.count x := by
    intro l
    induction l with
    | nil => rfl
    | cons y ys ih =>
      simp only [List.map_cons, List.countP_cons, ih, List.count_cons, pending]
      by_cases hy : y = x <;> simp [hy]
  simp [start, this, hu]

/-- In a quiet run, once the collector has left its loop, the intake is closed and
drained, every worker has returned after calling `g.Process`, and the batch is the plan
up to order. -/
theorem quiet_final {g0 : Gcr} {plan : List String} {s : SyncState} (hQ : Quiet g0 plan s)
    (hopen : g0.updateClosed = false) (hc : s.collector ≠ CPc.loop) :
    s.g.update = [] ∧ (∀ w ∈ s.workers, w.pc = WPc.finished ∧ w.calls = 1) ∧
      s.images.Perm plan := by
  obtain ⟨hI, hf, hacc⟩ := hQ
  have hleft : s.g.update = [] ∧ s.g.updateClosed = true := by
    rcases hI.left hc with h | h
    · simp [hf] at h
    · exact h
  have hm : s.main ≠ MPc.wait := by
    rcases (hI.opened hopen).2 hleft.2 with h | h <;> simp [h]
  have hfin := inv_finished hI hm
  have hpend : ∀ x, s.workers.countP (pending x) = 0 := by
    intro x
    rw [List.countP_eq_zero]
    intro w hw
    simp [pending, hfin w hw]
  refine ⟨hleft.1, fun w hw => ⟨hfin w hw, ?_⟩, List.perm_iff_count.mpr fun x => ?_⟩
  · exact (hI.wf w hw).2.2.2 hf (by simp [hfin w hw])
  · have := hacc x
    rw [hleft.1, hpend x] at this
    simpa using this

theorem empty_plan_stays_empty {g : Gcr} (hu : g.update = []) {sched : List Action}
    {s : SyncState} (h : run (start g []) sched = some s) :
    s.workers = [] ∧ s.g.update = [] ∧ s.images = [] := by
  refine run_invariant (fun s => s.workers = [] ∧ s.g.update = [] ∧ s.images = []) ?_ sched
    _ _ ⟨rfl, hu, rfl⟩ h
  intro s a s' hI hs
  obtain ⟨h1, h2, h3⟩ := hI
  cases hs <;> simp_all

theorem frozen_after_loop {s : SyncState} (hc : s.collector ≠ CPc.loop)
    {sched : List Action} {s' : SyncState} (h : run s sched = some s') :
    s'.images = s.images ∧ s'.collector ≠ CPc.loop ∧
      ∃ more, s'.g.update = s.g.update ++ more := by
  refine run_invariant
    (fun t => t.images = s.images ∧ t.collector ≠ CPc.loop ∧
      ∃ more, t.g.update = s.g.update ++ more) ?_ sched _ _ ⟨rfl, hc, [], by simp⟩ h
  intro t a t' hI hs
  obtain ⟨h1, h2, more, h3⟩ := hI
  cases hs
  case emit w _ _ _ _ _ =>
    exact ⟨h1, h2, more ++ [w.image], by simp [h3]⟩
  all_goals first
    | exact ⟨h1, h2, more, h3⟩
    | exact absurd (by assumption) h2
    | simp_all

theorem set_get {ws : List Worker} {i k : Nat} {w w' x : Worker} (hw : ws[i]? = some w)
    (h : (ws.set k x)[i]? = some w') : (k = i ∧ w' = x) ∨ (k ≠ i ∧ w' = w) := by
  rw [List.getElem?_set', hw] at h
  by_cases hk : k = i
  · simp [hk] at h
    exact Or.inl ⟨hk, h.symm⟩
  · simp [hk] at h
    exact Or.inr ⟨hk, h.symm⟩

/-- A step after which a worker that was at its `select` is inside `g.Process` is that
worker's receive of a token: from the buffer, or, on an unbuffered channel, from a worker
blocked in its deferred send. -/
theorem process_starts_by_token {s s' : SyncState} {a : Action} {i : Nat} {w w' : Worker}
    (hw : s.workers[i]? = some w) (hpc : w.pc = WPc.select) (hs : step s a = some s')
    (hw' : s'.workers[i]? = some w') (hpc' : w'.pc = WPc.transfer) :
    (a = Action.acquire i ∧ 0 < s.g.ProcessLimit) ∨
      ∃ (j : Nat) (v : Worker), a = Action.handoff j i ∧ s.g.ProcessLimitCap = 0 ∧
        s.workers[j]? = some v ∧ v.pc = WPc.release := by
  have hne : w.pc ≠ WPc.transfer := by rw [hpc]; decide
  -- a step that replaces one worker and leaves worker `i` inside `g.Process` replaces `i`
  have one : ∀ (k : Nat) (x : Worker),
      (s.workers.set k x)[i]? = some w' → k = i ∧ w' = x := by
    intro k x h
    rcases set_get hw h with h1 | ⟨_, h2⟩
    · exact h1
    · subst h2
      exact absurd hpc' hne
  unfold step at hs
  split at hs
  · simp at hs
  cases a with
  | acquire k =>
    simp only [Option.bind_eq_some] at hs
    obtain ⟨x, hx, hs⟩ := hs
    split at hs
    · rename_i hc
      simp only [Option.some.injEq] at hs
      subst hs
      obtain ⟨hk, _⟩ := one _ _ hw'
      subst hk
      exact Or.inl ⟨rfl, hc.2⟩
    · simp at hs
  | handoff k j =>
    simp only [Option.bind_eq_some] at hs
    obtain ⟨x, hx, v, hv, hs⟩ := hs
    split at hs
    · rename_i hc
      simp only [Option.some.injEq] at hs
      subst hs
      by_cases hj : j = i
      · subst hj
        exact Or.inr ⟨k, x, rfl, hc.1, hx, hc.2.1⟩
      · simp only [List.getElem?_set_ne hj] at hw'
        obtain ⟨_, h2⟩ := one _ _ hw'
        subst h2
        simp at hpc'
    · simp at hs
  | skip k =>
    simp only [Option.bind_eq_some] at hs
    obtain ⟨x, hx, hs⟩ := hs
    split at hs
    · simp only [Option.some.injEq] at hs
      subst hs
      obtain ⟨_, h2⟩ := one _ _ hw'
      subst h2
      simp at hpc'
    · simp at hs
  | release k =>
    simp only [Option.bind_eq_some] at hs
    obtain ⟨x, hx, hs⟩ := hs
    split at hs
    · simp only [sendToken] at hs
      split at hs
      · simp only [Option.map_some', Option.some.injEq] at hs
        subst hs
        obtain ⟨_, h2⟩ := one _ _ hw'
        subst h2
        simp at hpc'
      · simp at hs
    · simp at hs
  | wgDone k =>
    simp only [Option.bind_eq_some] at hs
    obtain ⟨x, hx, hs⟩ := hs
    split at hs
    · split at hs
      · simp only [Option.some.injEq] at hs
        subst hs
        rw [hw] at hw'
        simp only [Option.some.injEq] at hw'
        subst hw'
        exact absurd hpc' hne
      · simp only [Option.some.injEq] at hs
        subst hs
        obtain ⟨_, h2⟩ := one _ _ hw'
        subst h2
        simp at hpc'
    · simp at hs
  | process k p =>
    simp only [Option.bind_eq_some] at hs
    obtain ⟨x, hx, hs⟩ := hs
    cases p with
    | transferOk =>
      simp only [Process] at hs
      split at hs
      · simp only [Option.some.injEq] at hs
        subst hs
        obtain ⟨_, h2⟩ := one _ _ hw'
        subst h2
        simp at hpc'
      · simp at hs
    | transferFail =>
      simp only [Process] at hs
      split at hs
      · simp only [Option.some.injEq] at hs
        subst hs
        obtain ⟨_, h2⟩ := one _ _ hw'
        subst h2
        simp at hpc'
      · simp at hs
    | emit =>
      simp only [Process] at hs
      split at hs
      · split at hs
        · simp only [Option.some.injEq] at hs
          subst hs
          rw [hw] at hw'
          simp only [Option.some.injEq] at hw'
          subst hw'
          exact absurd hpc' hne
        · split at hs
          · simp only [Option.some.injEq] at hs
            subst hs
            obtain ⟨_, h2⟩ := one _ _ hw'
            subst h2
            simp at hpc'
          · simp at hs
      · simp at hs
  | _ =>
    exfalso
    simp only at hs
    repeat' split at hs
    all_goals first
      | (simp at hs; done)
      | (simp only [Option.some.injEq] at hs
         subst hs
         have hw2 : s.workers[i]? = some w' := hw'
         rw [hw] at hw2
         simp only [Option.some.injEq] at hw2
         subst hw2
         exact absurd hpc' hne)

/-! ## Evaluation of the concrete schedules -/

theorem demo_init : Init (newGcr 2 0) = some demoGcr := by decide

theorem demo_run : run (start demoGcr ["A", "C"]) demoSched = some demoFinal := by decide

theorem demo_run2 : run (start demoFinal.g ["B"]) demoSched2 = some demoSecond := by decide

theorem late_init : Init (newGcr 1 1) = some lateGcr := by decide

theorem late_run :
    run (start lateGcr ["A"])
      [Action.acquire 0, Action.timer, Action.process 0 ProcessStep.transferOk,
        Action.process 0 ProcessStep.emit] = some lateState := by
  decide

theorem stuckState_stuck : ∀ a, step stuckState a = none := by
  intro a
  cases a with
  | acquire i => cases i <;> rfl
  | skip i => cases i <;> rfl
  | process i p => cases i <;> cases p <;> rfl
  | release i => cases i <;> rfl
  | handoff i j => cases i <;> cases j <;> rfl
  | wgDone i => cases i <;> rfl
  | _ => rfl

theorem closed_run : run (start lateGcr []) emptySched = some closedFinal := by decide

theorem blocked_run : run (start closedGcr ["B"]) blockedSched = some blockedSecond := by
  decide

theorem blockedSecond_stuck : ∀ a, step blockedSecond a = none := by
  intro a
  cases a with
  | acquire i => cases i <;> rfl
  | skip i => cases i <;> rfl
  | process i p => cases i <;> cases p <;> rfl
  | release i => cases i <;> rfl
  | handoff i j => cases i <;> cases j <;> rfl
  | wgDone i => cases i <;> rfl
  | _ => rfl

theorem noToken_init : Init (newGcr 0 0) = some noTokenGcr := by decide

theorem noToken_run : run (start noTokenGcr []) emptySched = some noTokenFinal := by decide

theorem noToken_run2 :
    run (start noTokenFinal.g ["B"]) [Action.recv, Action.changeLogDone, Action.chgDone]
      = some noTokenSecond := by
  decide

theorem noTokenSecond_stuck : ∀ a, step noTokenSecond a = none := by
  intro a
  cases a with
  | acquire i => cases i <;> rfl
  | skip i => cases i <;> rfl
  | process i p => cases i <;> cases p <;> rfl
  | release i => cases i <;> rfl
  | handoff i j => cases i <;> cases j <;> rfl
  | wgDone i => cases i <;> rfl
  | _ => rfl

/-! ## The claims -/

/-- C1, failing run: with a pool of `P = 1` token and the plan `["A", "B", "C"]`, worker 0 is
admitted, the deadline fires, worker 1 takes the `ctx.Done()` case and its deferred
`g.ProcessLimit <- 1` puts a second token into circulation, which worker 2 receives: two
workers are inside `g.Process` although `P = 1`. -/
theorem skip_release_exceeds_pool :
    Init (newGcr 1 1) = some lateGcr ∧ lateGcr.ProcessLimitCap = 1 ∧
      (run (start lateGcr ["A", "B", "C"])
        [Action.acquire 0, Action.timer, Action.skip 1, Action.release 1,
          Action.acquire 2]).map inProcess = some 2 := by
  decide

/-- C2, counterexample: with `P = 1`, `T = 1` and the plan `["A"]` the deadline fires while
worker 0 is still at its `select` and has not acquired a token; the token case is ready
as well, and taking it starts `g.Process` after the cancellation. -/
theorem transfer_started_after_cancel :
    Init (newGcr 1 1) = some lateGcr ∧
      (run (start lateGcr ["A"]) [Action.timer]).map
        (fun s => (s.cancelled, s.workers.map fun w => (w.pc, w.calls)))
        = some (true, [(WPc.select, 0)]) ∧
      (run (start lateGcr ["A"]) [Action.timer, Action.acquire 0]).map
        (fun s => (s.cancelled, s.workers.map fun w => (w.pc, w.calls)))
        = some (true, [(WPc.transfer, 1)]) := by
  decide

/-- C2, amended: once the cancellation signal is raised, a worker still at its `select`
can always take the `ctx.Done()` case and skip, but `g.Process` can still begin for it: a
step puts it inside `g.Process` exactly when it is that worker's receive of a token,
either one buffered in `ProcessLimit` (`acquire`, enabled iff the buffer is not empty)
or, on an unbuffered `ProcessLimit` (capacity 0), one handed over by a worker blocked in
its deferred send (`handoff`).  So with capacity at least 1 no call of `g.Process`
begins for it while `ProcessLimit` is empty.  A worker admitted before the cancellation
can still continue its transfer. -/
theorem select_after_cancel (s : SyncState) (i : Nat) (w : Worker)
    (hw : s.workers[i]? = some w) (hpc : w.pc = WPc.select) (hc : s.cancelled = true)
    (hp : s.panicked = false) :
    step s (Action.skip i)
        = some { s with workers := s.workers.set i { w with pc := WPc.release } } ∧
      ((step s (Action.acquire i)).isSome = true ↔ 0 < s.g.ProcessLimit) ∧
      (∀ (j : Nat) (v : Worker), s.workers[j]? = some v →
        ((step s (Action.handoff j i)).isSome = true ↔
          s.g.ProcessLimitCap = 0 ∧ v.pc = WPc.release)) ∧
      (∀ (a : Action) (s' : SyncState) (w' : Worker), step s a = some s' →
        s'.workers[i]? = some w' → w'.pc = WPc.transfer →
        (a = Action.acquire i ∧ 0 < s.g.ProcessLimit) ∨
          ∃ (j : Nat) (v : Worker), a = Action.handoff j i ∧ s.g.ProcessLimitCap = 0 ∧
            s.workers[j]? = some v ∧ v.pc = WPc.release) ∧
      (1 ≤ s.g.ProcessLimitCap → s.g.ProcessLimit = 0 →
        ∀ (a : Action) (s' : SyncState) (w' : Worker), step s a = some s' →
          s'.workers[i]? = some w' → w'.pc ≠ WPc.transfer) ∧
      (∀ (j : Nat) (v : Worker), s.workers[j]? = some v → v.pc = WPc.transfer →
        step s (Action.process j ProcessStep.transferOk)
          = some { s with workers := s.workers.set j { v with pc := WPc.emit } }) := by
  refine ⟨?_, ?_, ?_, ?_, ?_, ?_⟩
  · simp [step, hp, hw, hpc, hc]
  · by_cases ht : 0 < s.g.ProcessLimit <;> simp [step, hp, hw, hpc, ht]
  · intro j v hv
    by_cases hcap : s.g.ProcessLimitCap = 0 <;> by_cases hv2 : v.pc = WPc.release <;>
      simp [step, hp, hw, hv, hpc, hcap, hv2]
  · intro a s' w' hs hw' hpc'
    exact process_starts_by_token hw hpc hs hw' hpc'
  · intro hcap ht a s' w' hs hw' hpc'
    rcases process_starts_by_token hw hpc hs hw' hpc' with ⟨_, h⟩ | ⟨_, _, _, h, _⟩
    · omega
    · omega
  · intro j v hv hvpc
    simp [step, hp, hv, Process, hvpc]

/-- Witness of `select_after_cancel`: the state right after the deadline fired, with both
workers of the plan `["A", "B"]` still at their `select`; worker 1 skips. -/
theorem select_after_cancel_witness :
    Init (newGcr 1 1) = some lateGcr ∧
      run (start lateGcr ["A", "B"]) [Action.timer]
        = some { start lateGcr ["A", "B"] with cancelled := true, timerFired := true } ∧
      step { start lateGcr ["A", "B"] with cancelled := true, timerFired := true }
          (Action.skip 1)
        = some { start lateGcr ["A", "B"] with
            cancelled := true, timerFired := true,
            workers := [{ image := "A", pc := WPc.select, calls := 0 },
                        { image := "B", pc := WPc.release, calls := 0 }] } :=
  ⟨late_init, by decide,
    (select_after_cancel
      { start lateGcr ["A", "B"] with cancelled := true, timerFired := true }
      1 { image := "B", pc := WPc.select, calls := 0 } rfl rfl rfl rfl).1⟩

/-- C3, failing run: with `P = 1`, `T = 1` and the plan `["A"]` the deadline fires before
worker 0 has selected; worker 0 takes the `ctx.Done()` case and its deferred
`g.ProcessLimit <- 1` finds the channel full (it took no token).  After the collector
has finished no goroutine can move: the worker never reaches `processWg.Done()`, no
transfer is running, and the caller stays in `processWg.Wait()`. -/
theorem skip_release_deadlock :
    Init (newGcr 1 1) = some lateGcr ∧
      run (start lateGcr ["A"])
        [Action.timer, Action.skip 0, Action.ctxDone, Action.changeLogDone, Action.chgDone]
        = some stuckState ∧
      stuckState.main = MPc.wait ∧ stuckState.processWg = 1 ∧ inProcess stuckState = 0 ∧
      stuckState.g.ProcessLimit = stuckState.g.ProcessLimitCap ∧
      ∀ a, step stuckState a = none :=
  ⟨by decide, by decide, rfl, rfl, by decide, rfl, stuckState_stuck⟩

/-- C4: in every run of `Sync` started from what `Init` leaves, `g.Commit` has been called
at most once and never with an empty batch.  When the plan is empty, `g.Commit` is never
called and the run completes: nothing panics, every schedule has at most 8 steps, and as
long as `Sync` has not returned some goroutine can move. -/
theorem commit_at_most_once (P : Nat) (T : Int) (plan : List String) (g : Gcr)
    (sched : List Action) (s : SyncState) (hInit : Init (newGcr P T) = some g)
    (hrun : run (start g plan) sched = some s) :
    s.commits.length ≤ 1 ∧ (∀ b ∈ s.commits, b ≠ []) ∧
      (plan = [] → s.commits = [] ∧ s.panicked = false ∧ sched.length ≤ 8 ∧
        (s.main ≠ MPc.returned → ∃ a s', step s a = some s')) := by
  obtain ⟨_, h2, h3, h4, h5⟩ := Init_spec hInit
  have hI := inv_of_run (by omega) hrun
  have hcom : s.commits = [] ∨ (s.images ≠ [] ∧ s.commits = [s.images]) := by
    cases hc : s.collector with
    | loop => exact Or.inl (hI.noCommit (Or.inl hc))
    | changeLogDone => exact Or.inl (hI.noCommit (Or.inr hc))
    | exit =>
      have := hI.commit (Or.inl hc)
      by_cases hi : s.images = []
      · exact Or.inl (by simpa [hi] using this)
      · exact Or.inr ⟨hi, by simpa [hi] using this⟩
    | done =>
      have := hI.commit (Or.inr hc)
      by_cases hi : s.images = []
      · exact Or.inl (by simpa [hi] using this)
      · exact Or.inr ⟨hi, by simpa [hi] using this⟩
  refine ⟨?_, ?_, ?_⟩
  · rcases hcom with h | ⟨_, h⟩ <;> simp [h]
  · rcases hcom with h | ⟨hne, h⟩
    · simp [h]
    · simp [h, hne]
  · intro hplan
    subst hplan
    obtain ⟨hw, _, hi⟩ := empty_plan_stays_empty h4 hrun
    have hp : s.panicked = false := (hI.opened h5).1
    refine ⟨?_, hp, ?_, ?_⟩
    · rcases hcom with h | ⟨hne, _⟩
      · exact h
      · exact absurd hi hne
    · have := fuel_run sched _ _ hrun
      rw [fuel_start, h4] at this
      simp only [List.length_nil] at this
      omega
    · intro hm
      obtain ⟨a, s', _, hs, _⟩ := progress_main hI hp hm (by rw [hI.wg, hw]; rfl)
      exact ⟨a, s', hs⟩

/-- Witness of `commit_at_most_once`: the complete run `demoSched`. -/
theorem commit_at_most_once_witness :
    Init (newGcr 2 0) = some demoGcr ∧
      run (start demoGcr ["A", "C"]) demoSched = some demoFinal ∧
      demoFinal.commits.length ≤ 1 ∧ ∀ b ∈ demoFinal.commits, b ≠ [] :=
  ⟨demo_init, demo_run,
    (commit_at_most_once 2 0 ["A", "C"] demoGcr demoSched demoFinal demo_init demo_run).1,
    (commit_at_most_once 2 0 ["A", "C"] demoGcr demoSched demoFinal demo_init demo_run).2.1⟩

/-- C5: with `SyncTimeOut = 0` the governor never fires.  In every reachable state the
timer action is disabled; as long as `Sync` has not returned the cancellation signal is
not set; no worker can take the `ctx.Done()` case and the collector cannot leave its loop
through it, so once it has left the loop the intake is closed and drained.  There is one
worker per entry of the plan, it has called `g.Process` at most once, exactly once as
soon as it has left its `select`, and so exactly once when all workers have returned.
Nothing panics, and with `1 ≤ P` the run completes however the steps are interleaved:
every schedule has at most `6 * len(plan) + 8` steps and some goroutine can move as long
as `Sync` has not returned. -/
theorem no_deadline_no_cancel (P : Nat) (plan : List String) (g : Gcr) (sched : List Action)
    (s : SyncState) (hInit : Init (newGcr P 0) = some g)
    (hrun : run (start g plan) sched = some s) :
    step s Action.timer = none ∧
      (s.main ≠ MPc.returned → s.cancelled = false) ∧
      (∀ i, step s (Action.skip i) = none) ∧
      step s Action.ctxDone = none ∧
      (s.collector ≠ CPc.loop → s.g.update = [] ∧ s.g.updateClosed = true) ∧
      s.workers.map (fun w => w.image) = plan ∧
      (∀ w ∈ s.workers, w.calls ≤ 1 ∧ (w.pc ≠ WPc.select → w.calls = 1)) ∧
      (s.main ≠ MPc.wait → ∀ w ∈ s.workers, w.pc = WPc.finished ∧ w.calls = 1) ∧
      s.panicked = false ∧ sched.length ≤ 6 * plan.length + 8 ∧
      (1 ≤ P → s.main ≠ MPc.returned → ∃ a s', step s a = some s') := by
  obtain ⟨h1, h2, h3, h4, h5⟩ := Init_spec hInit
  have hI := inv_of_run (by omega) hrun
  have hT : s.g.SyncTimeOut = 0 := by rw [hI.timeout, h1]
  have hf : s.timerFired = false := hI.timer hT
  have hp : s.panicked = false := (hI.opened h5).1
  have hcan : s.main ≠ MPc.returned → s.cancelled = false := by
    intro hm
    by_contra hc
    simp only [Bool.not_eq_false] at hc
    rcases hI.cancel hc with h | h
    · simp [hf] at h
    · exact hm h
  have hw : ∀ w ∈ s.workers, w.calls ≤ 1 ∧ (w.pc ≠ WPc.select → w.calls = 1) := by
    intro w hw
    have := hI.wf w hw
    exact ⟨this.1, this.2.2.2 hf⟩
  refine ⟨?_, hcan, ?_, ?_, ?_, hI.imgs, hw, ?_, hp, ?_, ?_⟩
  · simp [step, hT]
  · intro i
    by_cases hm : s.main = MPc.returned
    · cases hwi : s.workers[i]? with
      | none => simp [step, hwi]
      | some w =>
        have := inv_finished hI (by simp [hm]) w (List.getElem?_mem hwi)
        simp [step, hwi, this]
    · simp [step, hcan hm]
  · by_cases hm : s.main = MPc.returned
    · simp [step, hI.retDone hm]
    · simp [step, hcan hm]
  · intro hc
    rcases hI.left hc with h | h
    · simp [hf] at h
    · exact h
  · intro hm w hmem
    have hfin := inv_finished hI hm w hmem
    exact ⟨hfin, (hw w hmem).2 (by simp [hfin])⟩
  · have := fuel_run sched _ _ hrun
    rw [fuel_start, h4] at this
    simp only [List.length_nil] at this
    omega
  · intro hP hm
    obtain ⟨a, s', _, hs, _⟩ := progress hI (by omega) (by omega) hp hf hm
    exact ⟨a, s', hs⟩

/-- Witness of `no_deadline_no_cancel`: the complete run `demoSched`, whose two workers
have each called `g.Process` once. -/
theorem no_deadline_no_cancel_witness :
    Init (newGcr 2 0) = some demoGcr ∧
      run (start demoGcr ["A", "C"]) demoSched = some demoFinal ∧
      ∀ w ∈ demoFinal.workers, w.pc = WPc.finished ∧ w.calls = 1 :=
  ⟨demo_init, demo_run,
    (no_deadline_no_cancel 2 ["A", "C"] demoGcr demoSched demoFinal demo_init
      demo_run).2.2.2.2.2.2.2.1 (by decide)⟩

/-- C6, counterexample: the empty plan is duplicate-free; with `P = 2` its run is not
cancelled, no transfer fails, and `Sync` returns with an empty batch without any call of
`g.Commit`: the batch is not committed "exactly once". -/
theorem empty_plan_never_commits :
    Init (newGcr 2 0) = some demoGcr ∧ ([] : List String).Nodup ∧
      (run (start demoGcr [])
        [Action.wait, Action.close, Action.recv, Action.changeLogDone, Action.chgDone,
          Action.ret]).map (fun s => (s.main, s.timerFired, s.images, s.commits))
        = some (MPc.returned, false, [], []) := by
  decide

/-- C6, amended: for every non-empty duplicate-free plan and every pool size `P ≥ 1`, in a
run in which the deadline does not fire and no transfer fails, nothing panics and the
run goes on until `Sync` returns (some quiet action is enabled until then, and the
schedule has at most `6 * len(plan) + 8` steps).  At every point the batch followed by
the channel buffer is the sequence of the records sent, in the order of the sends.  Once
the collector has left its loop the batch is final: it is that sequence (arrival order),
a permutation of the plan without duplicates, of the length of the plan, and every task
has returned after one call of `g.Process`.  Before the collector reaches its `if`,
`g.Commit` has not been called; after it, and so when `Sync` has returned, `g.Commit`
has been called exactly once, with the final batch. -/
theorem quiet_run_commits_permutation (P : Nat) (T : Int) (plan : List String) (g : Gcr)
    (sched : List Action) (s : SyncState) (hInit : Init (newGcr P T) = some g)
    (hP : 1 ≤ P) (hnodup : plan.Nodup) (hne : plan ≠ [])
    (hquiet : ∀ a ∈ sched, a.quiet = true) (hrun : run (start g plan) sched = some s) :
    s.panicked = false ∧ s.timerFired = false ∧ sched.length ≤ 6 * plan.length + 8 ∧
      (s.main ≠ MPc.returned → ∃ a s', a.quiet = true ∧ step s a = some s') ∧
      s.sent = s.images ++ s.g.update ∧
      (s.collector ≠ CPc.loop →
        s.images = s.sent ∧ s.images.Perm plan ∧ s.images.Nodup ∧
          s.images.length = plan.length ∧
          (∀ w ∈ s.workers, w.pc = WPc.finished ∧ w.calls = 1)) ∧
      (s.collector = CPc.loop ∨ s.collector = CPc.changeLogDone → s.commits = []) ∧
      (s.collector = CPc.exit ∨ s.collector = CPc.done → s.commits = [s.images]) ∧
      (s.main = MPc.returned → s.collector = CPc.done) := by
  obtain ⟨_, h2, h3, h4, h5⟩ := Init_spec hInit
  have hQ : Quiet g plan s :=
    run_invariant_on Action.quiet (Quiet g plan) (fun _ _ _ hq hI hs => quiet_step hq hI hs)
      sched _ _ hquiet (quiet_start g plan (by omega) h4) hrun
  have hI := hQ.inv
  have hf := hQ.notFired
  have hp : s.panicked = false := (hI.opened h5).1
  have harr : s.sent = s.images ++ s.g.update := by
    have := hI.arrive
    rw [h4] at this
    simpa using this
  have hfinal : s.collector ≠ CPc.loop →
      s.images = s.sent ∧ s.images.Perm plan ∧ s.images.Nodup ∧
        s.images.length = plan.length ∧
        (∀ w ∈ s.workers, w.pc = WPc.finished ∧ w.calls = 1) := by
    intro hc
    obtain ⟨hu, hw, hperm⟩ := quiet_final hQ h5 hc
    exact ⟨by rw [harr, hu, List.append_nil], hperm, hperm.nodup_iff.mpr hnodup,
      hperm.length_eq, hw⟩
  refine ⟨hp, hf, ?_, ?_, harr, hfinal, hI.noCommit, ?_, hI.retDone⟩
  · have := fuel_run sched _ _ hrun
    rw [fuel_start, h4] at this
    simp only [List.length_nil] at this
    omega
  · intro hm
    obtain ⟨a, s', hq, hs, _⟩ := progress hI (by omega) (by omega) hp hf hm
    exact ⟨a, s', hq, hs⟩
  · intro hc
    have hperm := (hfinal (by rcases hc with h | h <;> simp [h])).2.1
    have hi : s.images ≠ [] := by
      intro h
      rw [h] at hperm
      exact hne (List.Perm.nil_eq hperm).symm
    simpa [hi] using hI.commit hc

/-- Witness of `quiet_run_commits_permutation`: the plan `["A", "C"]` with `P = 2`; the
records arrive in the order `"C"`, `"A"` and the batch is `["C", "A"]`. -/
theorem quiet_run_commits_permutation_witness :
    Init (newGcr 2 0) = some demoGcr ∧
      run (start demoGcr ["A", "C"]) demoSched = some demoFinal ∧
      demoFinal.main = MPc.returned ∧ demoFinal.sent = ["C", "A"] ∧
      demoFinal.images = demoFinal.sent ∧ demoFinal.images.Perm ["A", "C"] ∧
      demoFinal.commits = [demoFinal.images] :=
  ⟨demo_init, demo_run, rfl, rfl,
    ((quiet_run_commits_permutation 2 0 ["A", "C"] demoGcr demoSched demoFinal demo_init
      (by decide) (by decide) (by decide) (by decide) demo_run).2.2.2.2.2.1
      (by decide)).1,
    ((quiet_run_commits_permutation 2 0 ["A", "C"] demoGcr demoSched demoFinal demo_init
      (by decide) (by decide) (by decide) (by decide) demo_run).2.2.2.2.2.1
      (by decide)).2.1,
    (quiet_run_commits_permutation 2 0 ["A", "C"] demoGcr demoSched demoFinal demo_init
      (by decide) (by decide) (by decide) (by decide) demo_run).2.2.2.2.2.2.2.1
      (Or.inr rfl)⟩

/-- C7, counterexample: with `P = 1`, `T = 1` and the plan `["A"]` the deadline fires
during the transfer; the collector takes its `ctx.Done()` case and finalizes an empty
batch.  The worker then sends `"A"` on the intake, which is still open; the record stays
in the channel: when `Sync` returns the batch is empty and nothing was committed. -/
theorem late_record_dropped :
    Init (newGcr 1 1) = some lateGcr ∧
      (run (start lateGcr ["A"])
        [Action.acquire 0, Action.timer, Action.process 0 ProcessStep.transferOk,
          Action.ctxDone, Action.changeLogDone, Action.chgDone]).map
        (fun s => (s.cancelled, s.g.updateClosed, s.g.update, s.workers.map fun w => w.pc))
        = some (true, false, [], [WPc.emit]) ∧
      (run (start lateGcr ["A"])
        [Action.acquire 0, Action.timer, Action.process 0 ProcessStep.transferOk,
          Action.ctxDone, Action.changeLogDone, Action.chgDone,
          Action.process 0 ProcessStep.emit]).map
        (fun s => (s.cancelled, s.g.updateClosed, s.g.update, s.workers.map fun w => w.pc))
        = some (true, false, ["A"], [WPc.release]) ∧
      (run (start lateGcr ["A"])
        [Action.acquire 0, Action.timer, Action.process 0 ProcessStep.transferOk,
          Action.ctxDone, Action.changeLogDone, Action.chgDone,
          Action.process 0 ProcessStep.emit, Action.release 0, Action.wgDone 0,
          Action.wait, Action.close, Action.ret]).map
        (fun s => (s.main, s.g.update, s.images, s.commits))
        = some (MPc.returned, ["A"], [], []) := by
  refine ⟨by decide, by decide, by decide, by decide⟩

/-- C7, amended: a Completion Record that is in the intake channel, whether or not the
deadline has fired, is accepted only while the collector is still in its loop: there the
receive is enabled and appends the record to the batch, but after the cancellation the
collector may take its `ctx.Done()` case instead.  Once the collector has left the loop
the batch never changes, only that batch can be committed, and the record stays in the
channel. -/
theorem late_record_accepted_in_loop (P : Nat) (T : Int) (plan : List String) (g : Gcr)
    (sched : List Action) (s : SyncState) (x : String) (rest : List String)
    (hInit : Init (newGcr P T) = some g) (hrun : run (start g plan) sched = some s)
    (hu : s.g.update = x :: rest) :
    (s.collector = CPc.loop →
        step s Action.recv
          = some { s with g := { s.g with update := rest }, images := s.images ++ [x] } ∧
        (s.cancelled = true →
          step s Action.ctxDone = some { s with collector := CPc.changeLogDone })) ∧
      (s.collector ≠ CPc.loop → ∀ (sched' : List Action) (s' : SyncState),
        run s sched' = some s' →
          s'.images = s.images ∧ (∀ b ∈ s'.commits, b = s.images) ∧
            ∃ more, s'.g.update = x :: rest ++ more) := by
  obtain ⟨_, h2, h3, _, h5⟩ := Init_spec hInit
  have hI := inv_of_run (by omega) hrun
  have hp : s.panicked = false := (hI.opened h5).1
  refine ⟨fun hc => ⟨?_, fun hcan => ?_⟩, ?_⟩
  · simp [step, hp, hc, hu]
  · simp [step, hp, hc, hcan]
  · intro hc sched' s' hrun'
    obtain ⟨hi, hc', more, hmore⟩ := frozen_after_loop hc hrun'
    have hJ : Inv g plan s' :=
      run_invariant (Inv g plan) (fun _ _ _ hJ hs => inv_step hJ hs) sched' _ _ hI hrun'
    refine ⟨hi, ?_, more, by rw [hmore, hu]⟩
    intro b hb
    cases hcol : s'.collector with
    | loop => exact absurd hcol hc'
    | changeLogDone =>
      rw [hJ.noCommit (Or.inr hcol)] at hb
      simp at hb
    | exit =>
      rw [hJ.commit (Or.inl hcol)] at hb
      split at hb
      · simp at hb
      · simpa [hi] using hb
    | done =>
      rw [hJ.commit (Or.inr hcol)] at hb
      split at hb
      · simp at hb
      · simpa [hi] using hb

/-- Witness of `late_record_accepted_in_loop`: in `lateState` the deadline has fired and
the record `"A"` is in the channel; the collector, still in its loop, can receive it. -/
theorem late_record_accepted_in_loop_witness :
    Init (newGcr 1 1) = some lateGcr ∧
      run (start lateGcr ["A"])
        [Action.acquire 0, Action.timer, Action.process 0 ProcessStep.transferOk,
          Action.process 0 ProcessStep.emit] = some lateState ∧
      lateState.cancelled = true ∧
      step lateState Action.recv
        = some { lateState with
            g := { lateState.g with update := [] }, images := lateState.images ++ ["A"] } :=
  ⟨late_init, late_run, rfl,
    ((late_record_accepted_in_loop 1 1 ["A"] lateGcr _ lateState "A" [] late_init late_run
      rfl).1 rfl).1⟩

/-- C8: the intake channel is closed only after every worker has called
`processWg.Done()`: in every reachable state in which `g.update` is closed, the counter
of `processWg` is zero and every worker has returned, so none is inside `g.Process`. -/
theorem close_after_all_done (P : Nat) (T : Int) (plan : List String) (g : Gcr)
    (sched : List Action) (s : SyncState) (hInit : Init (newGcr P T) = some g)
    (hrun : run (start g plan) sched = some s) (hclosed : s.g.updateClosed = true) :
    s.processWg = 0 ∧ (∀ w ∈ s.workers, w.pc = WPc.finished) ∧ inProcess s = 0 ∧
      s.workers.length = plan.length := by
  obtain ⟨_, h2, h3, _, h5⟩ := Init_spec hInit
  have hI := inv_of_run (by omega) hrun
  have hm := (hI.opened h5).2 hclosed
  have hne : s.main ≠ MPc.wait := by rcases hm with h | h <;> simp [h]
  have hfin := inv_finished hI hne
  refine ⟨hI.mainWg hne, hfin, ?_, ?_⟩
  · unfold inProcess
    rw [List.countP_eq_zero]
    intro w hw
    simp [hfin w hw]
  · rw [← hI.imgs, List.length_map]

/-- Witness of `close_after_all_done`: the final state of `demoSched`. -/
theorem close_after_all_done_witness :
    Init (newGcr 2 0) = some demoGcr ∧
      run (start demoGcr ["A", "C"]) demoSched = some demoFinal ∧
      demoFinal.g.updateClosed = true ∧ demoFinal.processWg = 0 :=
  ⟨demo_init, demo_run, rfl,
    (close_after_all_done 2 0 ["A", "C"] demoGcr demoSched demoFinal demo_init demo_run rfl).1⟩

/-- C9: when `Sync` returns from a run started with exactly `P` tokens in `ProcessLimit`
(capacity `P`, as `Init` leaves it), exactly `P` tokens are in `ProcessLimit` again and no
worker holds one.  With `1 ≤ P` such a run end exists for every plan. -/
theorem tokens_restored (P : Nat) (T : Int) (plan : List String) (g : Gcr) (sched : List Action)
    (s : SyncState) (hInit : Init (newGcr P T) = some g)
    (hrun : run (start g plan) sched = some s) (hret : s.main = MPc.returned) :
    s.g.ProcessLimit = P ∧ s.g.ProcessLimitCap = P ∧ s.workers.countP holding = 0 ∧
      inProcess s = 0 ∧
      (1 ≤ P →
        ∃ sched' s', run (start g plan) sched' = some s' ∧ s'.main = MPc.returned) := by
  obtain ⟨_, h2, h3, _, h5⟩ := Init_spec hInit
  have hI := inv_of_run (by omega) hrun
  have hfin := inv_finished hI (by simp [hret])
  have hh : s.workers.countP holding = 0 := by
    rw [List.countP_eq_zero]
    intro w hw
    simp [holding, hfin w hw]
  have hin : inProcess s = 0 := by
    unfold inProcess
    rw [List.countP_eq_zero]
    intro w hw
    simp [hfin w hw]
  have ht := hI.tokens
  have hr := hI.room
  have hc := hI.cap
  refine ⟨by omega, by omega, hh, hin, fun hP => ?_⟩
  obtain ⟨sched', s', _, hrun', _, hend⟩ :=
    @can_finish g plan (show g.ProcessLimit = g.ProcessLimitCap by omega) (by omega)
      _ (start g plan) (le_refl _) (inv_start g plan (by omega)) rfl
  rcases hend with hend | hend
  · exact ⟨sched', s', hrun', hend⟩
  · have := ((@inv_of_run g plan (show g.ProcessLimit ≤ g.ProcessLimitCap by omega)
      sched' s' hrun').opened h5).1
    simp [hend] at this

/-- Witness of `tokens_restored`: the final state of `demoSched`, with `P = 2`. -/
theorem tokens_restored_witness :
    Init (newGcr 2 0) = some demoGcr ∧
      run (start demoGcr ["A", "C"]) demoSched = some demoFinal ∧
      demoFinal.main = MPc.returned ∧ demoFinal.g.ProcessLimit = 2 :=
  ⟨demo_init, demo_run, rfl,
    (tokens_restored 2 0 ["A", "C"] demoGcr demoSched demoFinal demo_init demo_run rfl).1⟩

/-- C10, counterexample: a second call of `Sync` need not reach a panic.  With `P = 1` and
`T = 1` a first call for the empty plan returns and leaves `closedGcr`; in a second call
for the plan `["B"]` the deadline fires, the worker takes the `ctx.Done()` case and
blocks in its deferred send on the full `ProcessLimit`, the collector finalizes, and then
nothing can move although nothing has panicked.  With `P = 0` and `T = 0` the worker of
the second call waits for a token for ever, again without a panic. -/
theorem second_sync_blocks_without_panic :
    (Init (newGcr 1 1) = some lateGcr ∧
      run (start lateGcr []) emptySched = some closedFinal ∧
      closedFinal.main = MPc.returned ∧
      run (start closedFinal.g ["B"]) blockedSched = some blockedSecond ∧
      blockedSecond.panicked = false ∧ blockedSecond.main = MPc.wait ∧
      ∀ a, step blockedSecond a = none) ∧
    (Init (newGcr 0 0) = some noTokenGcr ∧
      run (start noTokenGcr []) emptySched = some noTokenFinal ∧
      noTokenFinal.main = MPc.returned ∧
      run (start noTokenFinal.g ["B"]) [Action.recv, Action.changeLogDone, Action.chgDone]
        = some noTokenSecond ∧
      noTokenSecond.panicked = false ∧ noTokenSecond.main = MPc.wait ∧
      ∀ a, step noTokenSecond a = none) :=
  ⟨⟨late_init, closed_run, rfl, blocked_run, rfl, rfl, blockedSecond_stuck⟩,
    ⟨noToken_init, noToken_run, rfl, noToken_run2, rfl, rfl, noTokenSecond_stuck⟩⟩

/-- C10, amended: `Sync` cannot be run twice on the same `Gcr`.  A call that has returned
leaves `g.update` closed, and `Init` is the only place that makes the channel.  In every
reachable state of a second call started on the `Gcr` the first one left, the channel is
still closed and `Sync` has not returned: the caller is at `processWg.Wait()` or at
`close(g.update)`, where its only step is the panic of closing a closed channel; a worker
that reaches its send on `g.update` panics there; and after a panic nothing moves.  With
`1 ≤ P`, as long as the timer has not fired and nothing has panicked, some action other
than the timer is enabled; every schedule is bounded; so a second call in which the
deadline does not fire ends in the panic, and such a run exists. -/
theorem second_sync_never_returns (P : Nat) (T : Int) (plan1 plan2 : List String) (g : Gcr)
    (sched1 sched2 : List Action) (s1 s2 : SyncState)
    (hInit : Init (newGcr P T) = some g)
    (hrun1 : run (start g plan1) sched1 = some s1) (hret1 : s1.main = MPc.returned)
    (hrun2 : run (start s1.g plan2) sched2 = some s2) :
    s1.g.updateClosed = true ∧ s2.g.updateClosed = true ∧ s2.main ≠ MPc.returned ∧
      (s2.main = MPc.wait ∨ s2.main = MPc.close) ∧
      (s2.main = MPc.close → s2.panicked = false →
        step s2 Action.close = some { s2 with panicked := true }) ∧
      (∀ (i : Nat) (w : Worker), s2.workers[i]? = some w → w.pc = WPc.emit →
        s2.panicked = false →
        step s2 (Action.process i ProcessStep.emit) = some { s2 with panicked := true }) ∧
      (s2.panicked = true → ∀ a, step s2 a = none) ∧
      sched2.length ≤ 6 * plan2.length + s1.g.update.length + 8 ∧
      (1 ≤ P → s2.timerFired = false → s2.panicked = false →
        ∃ a s', a ≠ Action.timer ∧ step s2 a = some s' ∧ s'.timerFired = false) ∧
      (1 ≤ P → ∃ sched' s', (∀ a ∈ sched', a ≠ Action.timer) ∧
        run (start s1.g plan2) sched' = some s' ∧ s'.panicked = true) := by
  obtain ⟨_, h2, h3, _, h5⟩ := Init_spec hInit
  have hI1 := inv_of_run (by omega) hrun1
  have hc1 : s1.g.updateClosed = true := hI1.closed (Or.inr hret1)
  have hI2 := inv_of_run hI1.room hrun2
  obtain ⟨hc2, hm2⟩ := hI2.reclosed hc1
  have hne2 : s2.main ≠ MPc.returned := by rcases hm2 with h | h <;> simp [h]
  have hfin1 := inv_finished hI1 (by simp [hret1])
  have hfull : s1.g.ProcessLimit = s1.g.ProcessLimitCap := by
    have hh : s1.workers.countP holding = 0 := by
      rw [List.countP_eq_zero]
      intro w hw
      simp [holding, hfin1 w hw]
    have ht := hI1.tokens
    have hr := hI1.room
    have hc := hI1.cap
    omega
  have hcap : s1.g.ProcessLimitCap = P := by rw [hI1.cap, h2]
  refine ⟨hc1, hc2, hne2, hm2, ?_, ?_, ?_, ?_, ?_, ?_⟩
  · intro hm hp
    simp [step, hm, hp, hc2]
  · intro i w hw hpc hp
    simp [step, hp, hw, Process, hpc, hc2]
  · intro hp a
    simp [step, hp]
  · have := fuel_run sched2 _ _ hrun2
    rw [fuel_start] at this
    omega
  · intro hP hf hp
    obtain ⟨a, s', hq, hs, hf'⟩ := progress hI2 hfull (by omega) hp hf hne2
    refine ⟨a, s', ?_, hs, by rw [hf', hf]⟩
    intro h
    rw [h] at hq
    exact absurd hq (by decide)
  · intro hP
    obtain ⟨sched', s', hq, hrun', _, hend⟩ :=
      @can_finish s1.g plan2 hfull (by omega) _ (start s1.g plan2) (le_refl _)
        (inv_start s1.g plan2 hI1.room) rfl
    refine ⟨sched', s', ?_, hrun', ?_⟩
    · intro a ha h
      have := hq a ha
      rw [h] at this
      exact absurd this (by decide)
    · rcases hend with hend | hend
      · have := ((@inv_of_run s1.g plan2 hI1.room sched' s' hrun').reclosed hc1).2
        rcases this with h | h <;> simp [hend] at h
      · exact hend

/-- Witness of `second_sync_never_returns`: after the complete run `demoSched`, a second
call for the plan `["B"]` panics at the send on `g.update`. -/
theorem second_sync_never_returns_witness :
    Init (newGcr 2 0) = some demoGcr ∧
      run (start demoGcr ["A", "C"]) demoSched = some demoFinal ∧
      demoFinal.main = MPc.returned ∧
      run (start demoFinal.g ["B"]) demoSched2 = some demoSecond ∧
      demoSecond.panicked = true ∧ demoSecond.main ≠ MPc.returned :=
  ⟨demo_init, demo_run, rfl, demo_run2, rfl,
    (second_sync_never_returns 2 0 ["A", "C"] ["B"] demoGcr demoSched demoSched2 demoFinal
      demoSecond demo_init demo_run rfl demo_run2).2.2.1⟩

end Gcrsync
